import Mathlib

/-!
# Verification of the `users` crate (ogham/rust-users)

Shallow embedding of the crate's caching identity resolver (`OSUsers` in
`src/os.rs` / `src/lib.rs`), the marshalling layer (`members` in
`src/base.rs`), the defensive raw lookups (`get_user_by_uid` etc. in
`src/base.rs`), the identity-switch functions and guard (`src/switch.rs`,
`src/lib.rs`), and the all-users iterator (`src/base.rs`), together with
proofs of the specified properties.

The raw OS collaborator (libc's `getpwuid`, `getpwnam`, `getgrgid`,
`getgrnam`, `getuid`, `setuid`, `getpwent`, ...) is modelled as a record
of pure functions; every library operation is instrumented to return the
list of raw calls it performs, so that memoization ("at most one system
call per id") is provable as a statement about traces.
-/

namespace Users

/-- A user record, as in `src/lib.rs` (`pub struct User`): user id, name,
primary group id, home directory and shell. -/
structure User where
  uid : Nat
  name : String
  primary_group : Nat
  home_dir : String
  shell : String
deriving DecidableEq, Repr

/-- A group record, as in `src/lib.rs` (`pub struct Group`): group id, name
and member user names. -/
structure Group where
  gid : Nat
  name : String
  members : List String
deriving DecidableEq, Repr

/-- The constructor `CString::new` fails exactly when the string holds an embedded null
byte; this predicate recognises such strings. -/
def hasNul (s : String) : Bool :=
  s.data.contains (Char.ofNat 0)

/-- Association-list lookup, modelling `HashMap::get` / the `Entry` check:
the most recent insertion for a key shadows older ones. -/
def alookup {α β : Type} [DecidableEq α] : List (α × β) → α → Option β
  | [], _ => none
  | (k, v) :: rest, a => if a = k then some v else alookup rest a

/-- Association-list insertion, modelling `HashMap::insert` (the new entry
shadows any previous entry for the same key). -/
def ainsert {α β : Type} (m : List (α × β)) (k : α) (v : β) : List (α × β) :=
  (k, v) :: m

/-- The kinda-bi-directional map of `src/os.rs` (`struct BiMap`): a forward
map from numeric id to cached lookup state (`Some value` = resolved-present,
`None` = resolved-absent, key missing = never looked up), and a backward map
from name to the id it resolved to. -/
structure BiMap (V : Type) where
  forward : List (Nat × Option V)
  backward : List (String × Option Nat)
deriving DecidableEq, Repr

/-- The raw lookup collaborator: the libc-level functions the cache
delegates to. Lookups are a fixed database for the lifetime of the cache
(the crate deliberately accepts staleness, `src/lib.rs` module docs). -/
structure RawEnv where
  getpwuid : Nat → Option User
  getpwnam : String → Option User
  getgrgid : Nat → Option Group
  getgrnam : String → Option Group
  getuid : Nat
  getgid : Nat
  geteuid : Nat
  getegid : Nat

/-- One raw lookup call performed against the OS database. -/
inductive RawCall where
  | pwuid (uid : Nat)
  | pwnam (name : String)
  | grgid (gid : Nat)
  | grnam (name : String)
  | uid
  | gid
  | euid
  | egid
deriving DecidableEq, Repr

/-- Number of occurrences of one call in a trace. -/
def countIn {α : Type} [DecidableEq α] (c : α) : List α → Nat
  | [] => 0
  | d :: tr => (if d = c then 1 else 0) + countIn c tr

/-- The by-id cache operation on one `BiMap`, exactly the body of
`get_user_by_uid` / `get_group_by_gid` in `src/os.rs`: on a vacant forward
entry call the raw collaborator, insert the result under the id and (on
success) the name→id association in the backward map; on an occupied entry
return the cached state with no raw call. Returns (result, new map, raw
calls performed); `evId` names the raw call for the trace. -/
def bimap_get_by_id {V : Type} (raw : Nat → Option V) (vid : V → Nat)
    (vname : V → String) (evId : Nat → RawCall) (m : BiMap V) (i : Nat) :
    Option V × BiMap V × List RawCall :=
  match alookup m.forward i with
  | some cached => (cached, m, [])
  | none =>
    match raw i with
    | some v =>
      (some v,
       { forward := ainsert m.forward i (some v),
         backward := ainsert m.backward (vname v) (some (vid v)) },
       [evId i])
    | none =>
      (none, { m with forward := ainsert m.forward i none }, [evId i])

/-- The by-name cache operation on one `BiMap`, the body of
`get_user_by_name` / `get_group_by_name` in `src/os.rs`. The vacant branch
calls `super::get_user_by_name` (`src/base/unix.rs`), which rejects names
holding a null byte before reaching the OS call `rawN`; the cache then
memoizes whatever it got, negative results included. The occupied branch
with a resolved id indexes the forward map directly
(`self.users.forward[&uid]`); a missing key there is a panic, modelled as
the outer `none`. -/
def bimap_get_by_name {V : Type} (rawN : String → Option V) (vid : V → Nat)
    (evName : String → RawCall) (m : BiMap V) (n : String) :
    Option (Option V × BiMap V × List RawCall) :=
  match alookup m.backward n with
  | none =>
    if hasNul n then
      some (none, { m with backward := ainsert m.backward n none }, [])
    else
      match rawN n with
      | some v =>
        some (some v,
              { forward := ainsert m.forward (vid v) (some v),
                backward := ainsert m.backward n (some (vid v)) },
              [evName n])
      | none =>
        some (none, { m with backward := ainsert m.backward n none }, [evName n])
  | some (some i) =>
    match alookup m.forward i with
    | some cached => some (cached, m, [])
    | none => none
  | some none => some (none, m, [])

/-- The by-name cache operation as written in the `src/lib.rs` snapshot of
`get_user_by_name`: there the `CString::new` null-byte check sits inside the
cache method and returns `None` *before* anything is inserted, so a
malformed name leaves the maps untouched. All other branches agree with
`bimap_get_by_name`. -/
def bimap_get_by_name_lib {V : Type} (rawN : String → Option V) (vid : V → Nat)
    (evName : String → RawCall) (m : BiMap V) (n : String) :
    Option (Option V × BiMap V × List RawCall) :=
  match alookup m.backward n with
  | none =>
    if hasNul n then
      some (none, m, [])
    else
      match rawN n with
      | some v =>
        some (some v,
              { forward := ainsert m.forward (vid v) (some v),
                backward := ainsert m.backward n (some (vid v)) },
              [evName n])
      | none =>
        some (none, { m with backward := ainsert m.backward n none }, [evName n])
  | some (some i) =>
    match alookup m.forward i with
    | some cached => some (cached, m, [])
    | none => none
  | some none => some (none, m, [])

/-- The caching producer of `src/os.rs` (`pub struct OSUsers`): one `BiMap`
per entity type plus four independently memoized single-value caches for
the process's own ids. -/
structure OSUsers where
  users : BiMap User
  groups : BiMap Group
  uid : Option Nat
  gid : Option Nat
  euid : Option Nat
  egid : Option Nat
deriving DecidableEq, Repr

/-- Models `OSUsers::empty_cache()`. -/
def OSUsers.empty_cache : OSUsers :=
  { users := { forward := [], backward := [] },
    groups := { forward := [], backward := [] },
    uid := none, gid := none, euid := none, egid := none }

/-- Models `OSUsers::get_user_by_uid` (`src/os.rs`). -/
def OSUsers.get_user_by_uid (env : RawEnv) (s : OSUsers) (uid : Nat) :
    Option User × OSUsers × List RawCall :=
  let r := bimap_get_by_id env.getpwuid User.uid User.name RawCall.pwuid s.users uid
  (r.1, { s with users := r.2.1 }, r.2.2)

/-- Models `OSUsers::get_group_by_gid` (`src/os.rs`). -/
def OSUsers.get_group_by_gid (env : RawEnv) (s : OSUsers) (gid : Nat) :
    Option Group × OSUsers × List RawCall :=
  let r := bimap_get_by_id env.getgrgid Group.gid Group.name RawCall.grgid s.groups gid
  (r.1, { s with groups := r.2.1 }, r.2.2)

/-- Models `OSUsers::get_user_by_name` (`src/os.rs`); `none` models the panic of
the direct forward-map indexing on a dangling backward entry. -/
def OSUsers.get_user_by_name (env : RawEnv) (s : OSUsers) (n : String) :
    Option (Option User × OSUsers × List RawCall) :=
  (bimap_get_by_name env.getpwnam User.uid RawCall.pwnam s.users n).map
    (fun r => (r.1, { s with users := r.2.1 }, r.2.2))

/-- Models `OSUsers::get_group_by_name` (`src/os.rs`). -/
def OSUsers.get_group_by_name (env : RawEnv) (s : OSUsers) (n : String) :
    Option (Option Group × OSUsers × List RawCall) :=
  (bimap_get_by_name env.getgrnam Group.gid RawCall.grnam s.groups n).map
    (fun r => (r.1, { s with groups := r.2.1 }, r.2.2))

/-- Models `get_user_by_name` as in the `src/lib.rs` snapshot (null-byte check
before any map mutation). -/
def OSUsers.lib_get_user_by_name (env : RawEnv) (s : OSUsers) (n : String) :
    Option (Option User × OSUsers × List RawCall) :=
  (bimap_get_by_name_lib env.getpwnam User.uid RawCall.pwnam s.users n).map
    (fun r => (r.1, { s with users := r.2.1 }, r.2.2))

/-- Models `OSUsers::get_current_uid` (`src/os.rs`): memoized single-shot read. -/
def OSUsers.get_current_uid (env : RawEnv) (s : OSUsers) :
    Nat × OSUsers × List RawCall :=
  match s.uid with
  | some uid => (uid, s, [])
  | none => (env.getuid, { s with uid := some env.getuid }, [RawCall.uid])

/-- Models `OSUsers::get_current_gid` (`src/os.rs`). -/
def OSUsers.get_current_gid (env : RawEnv) (s : OSUsers) :
    Nat × OSUsers × List RawCall :=
  match s.gid with
  | some gid => (gid, s, [])
  | none => (env.getgid, { s with gid := some env.getgid }, [RawCall.gid])

/-- Models `OSUsers::get_effective_uid` (`src/os.rs`). -/
def OSUsers.get_effective_uid (env : RawEnv) (s : OSUsers) :
    Nat × OSUsers × List RawCall :=
  match s.euid with
  | some uid => (uid, s, [])
  | none => (env.geteuid, { s with euid := some env.geteuid }, [RawCall.euid])

/-- Models `OSUsers::get_effective_gid` (`src/os.rs`). -/
def OSUsers.get_effective_gid (env : RawEnv) (s : OSUsers) :
    Nat × OSUsers × List RawCall :=
  match s.egid with
  | some gid => (gid, s, [])
  | none => (env.getegid, { s with egid := some env.getegid }, [RawCall.egid])

/-- One public cache operation, for quantifying over every sequence of
calls a consumer can make against one `OSUsers` instance. The four
`…name`/`…groupname` entries are the composite accessors of `src/os.rs`
(`get_current_username` = `get_current_uid` then `get_user_by_uid`, and so
on). -/
inductive Op where
  | userByUid (uid : Nat)
  | userByName (name : String)
  | groupByGid (gid : Nat)
  | groupByName (name : String)
  | currentUid
  | currentGid
  | effectiveUid
  | effectiveGid
  | currentUsername
  | currentGroupname
  | effectiveUsername
  | effectiveGroupname
deriving DecidableEq, Repr

/-- Run one cache operation: the state it leaves and the raw calls it
performs (`none` = the operation panicked). -/
def runOp (env : RawEnv) (s : OSUsers) : Op → Option (OSUsers × List RawCall)
  | .userByUid i =>
    let r := OSUsers.get_user_by_uid env s i
    some (r.2.1, r.2.2)
  | .userByName n =>
    (OSUsers.get_user_by_name env s n).map (fun r => (r.2.1, r.2.2))
  | .groupByGid i =>
    let r := OSUsers.get_group_by_gid env s i
    some (r.2.1, r.2.2)
  | .groupByName n =>
    (OSUsers.get_group_by_name env s n).map (fun r => (r.2.1, r.2.2))
  | .currentUid =>
    let r := OSUsers.get_current_uid env s
    some (r.2.1, r.2.2)
  | .currentGid =>
    let r := OSUsers.get_current_gid env s
    some (r.2.1, r.2.2)
  | .effectiveUid =>
    let r := OSUsers.get_effective_uid env s
    some (r.2.1, r.2.2)
  | .effectiveGid =>
    let r := OSUsers.get_effective_gid env s
    some (r.2.1, r.2.2)
  | .currentUsername =>
    let r := OSUsers.get_current_uid env s
    let r2 := OSUsers.get_user_by_uid env r.2.1 r.1
    some (r2.2.1, r.2.2 ++ r2.2.2)
  | .currentGroupname =>
    let r := OSUsers.get_current_gid env s
    let r2 := OSUsers.get_group_by_gid env r.2.1 r.1
    some (r2.2.1, r.2.2 ++ r2.2.2)
  | .effectiveUsername =>
    let r := OSUsers.get_effective_uid env s
    let r2 := OSUsers.get_user_by_uid env r.2.1 r.1
    some (r2.2.1, r.2.2 ++ r2.2.2)
  | .effectiveGroupname =>
    let r := OSUsers.get_effective_gid env s
    let r2 := OSUsers.get_group_by_gid env r.2.1 r.1
    some (r2.2.1, r.2.2 ++ r2.2.2)

/-- Run a sequence of cache operations, concatenating the raw-call traces;
a panic anywhere aborts the run. -/
def runOps (env : RawEnv) : OSUsers → List Op → Option (OSUsers × List RawCall)
  | s, [] => some (s, [])
  | s, op :: rest =>
    match runOp env s op with
    | none => none
    | some (s', tr) =>
      match runOps env s' rest with
      | none => none
      | some (s'', tr') => some (s'', tr ++ tr')

/-! ## Marshalling layer: group-member expansion (`src/base.rs`) -/

/-- The loop body of `members` (`src/base.rs`): walk the cells from index 0
and stop at the first null entry; a cell is `none` for a null pointer and
`some s` for a pointer to the C string `s`. -/
def membersFrom : List (Option String) → List String
  | [] => []
  | none :: _ => []
  | some s :: rest => s :: membersFrom rest

/-- Models `members` (`src/base.rs`): expand a raw null-terminated pointer array of
C strings. The argument is `none` when the array pointer itself is null
(the first defensive check `username.is_null()`), otherwise the list of
cells the walk can reach. -/
def members : Option (List (Option String)) → List String
  | none => []
  | some cells => membersFrom cells

/-! ## Defensive raw lookups (`src/base.rs`, the `_r` variants) -/

/-- What one `getpwuid_r`-family call can observe: the OS left the result
pointer null (no record, or an error), the OS claimed success but the
result pointer differs from the struct supplied to the call, or the result
matches and marshals to `v`. -/
inductive LookupOutcome (V : Type) where
  | nullResult
  | mismatch
  | found (v : V)
deriving DecidableEq, Repr

namespace base

/-- Models `get_user_by_uid` (`src/base.rs`): null result → `None`; result pointer
not the supplied struct → `None` (defensive inconsistent-database case);
otherwise marshal the record. -/
def get_user_by_uid (db : Nat → LookupOutcome User) (uid : Nat) : Option User :=
  match db uid with
  | .nullResult => none
  | .mismatch => none
  | .found u => some u

/-- Models `get_user_by_name` (`src/base.rs`): a name holding a null byte fails
`CString::new` and returns `None` before any OS call; otherwise the same
defensive checks as the by-id variant. -/
def get_user_by_name (db : String → LookupOutcome User) (n : String) : Option User :=
  if hasNul n then none
  else
    match db n with
    | .nullResult => none
    | .mismatch => none
    | .found u => some u

/-- Models `get_group_by_gid` (`src/base.rs`). -/
def get_group_by_gid (db : Nat → LookupOutcome Group) (gid : Nat) : Option Group :=
  match db gid with
  | .nullResult => none
  | .mismatch => none
  | .found g => some g

/-- Models `get_group_by_name` (`src/base.rs`). -/
def get_group_by_name (db : String → LookupOutcome Group) (n : String) : Option Group :=
  if hasNul n then none
  else
    match db n with
    | .nullResult => none
    | .mismatch => none
    | .found g => some g

end base

/-! ## Identity mutation and the switch guard (`src/switch.rs`, `src/lib.rs`) -/

/-- Result of one identity-mutation wrapper: `ok` for return value 0,
`err code` for return value -1 with `errno` = `code`, and `unreachable`
for any other return value (the `unreachable!()` arm). -/
inductive SysOutcome where
  | ok
  | err (code : Nat)
  | unreachable (ret : Int)
deriving DecidableEq, Repr

/-- The OS privilege-change primitives: for each, the `c_int` it returns
for a given argument and the `errno` it leaves behind on failure. -/
structure SwitchEnv where
  setuid_ret : Nat → Int
  setuid_errno : Nat → Nat
  setgid_ret : Nat → Int
  setgid_errno : Nat → Nat
  seteuid_ret : Nat → Int
  seteuid_errno : Nat → Nat
  setegid_ret : Nat → Int
  setegid_errno : Nat → Nat
  setreuid_ret : Nat → Nat → Int
  setreuid_errno : Nat → Nat → Nat
  setregid_ret : Nat → Nat → Int
  setregid_errno : Nat → Nat → Nat

namespace switch

/-- Models `set_current_uid` (`src/switch.rs`): `setuid` then match on 0 / -1 / n. -/
def set_current_uid (env : SwitchEnv) (uid : Nat) : SysOutcome :=
  match env.setuid_ret uid with
  | 0 => .ok
  | -1 => .err (env.setuid_errno uid)
  | n => .unreachable n

/-- Models `set_current_gid` (`src/switch.rs`). -/
def set_current_gid (env : SwitchEnv) (gid : Nat) : SysOutcome :=
  match env.setgid_ret gid with
  | 0 => .ok
  | -1 => .err (env.setgid_errno gid)
  | n => .unreachable n

/-- Models `set_effective_uid` (`src/switch.rs`). -/
def set_effective_uid (env : SwitchEnv) (uid : Nat) : SysOutcome :=
  match env.seteuid_ret uid with
  | 0 => .ok
  | -1 => .err (env.seteuid_errno uid)
  | n => .unreachable n

/-- Models `set_effective_gid` (`src/switch.rs`). -/
def set_effective_gid (env : SwitchEnv) (gid : Nat) : SysOutcome :=
  match env.setegid_ret gid with
  | 0 => .ok
  | -1 => .err (env.setegid_errno gid)
  | n => .unreachable n

/-- Models `set_both_uid` (`src/switch.rs`): `setreuid`. -/
def set_both_uid (env : SwitchEnv) (ruid euid : Nat) : SysOutcome :=
  match env.setreuid_ret ruid euid with
  | 0 => .ok
  | -1 => .err (env.setreuid_errno ruid euid)
  | n => .unreachable n

/-- Models `set_both_gid` (`src/switch.rs`): `setregid`. -/
def set_both_gid (env : SwitchEnv) (rgid egid : Nat) : SysOutcome :=
  match env.setregid_ret rgid egid with
  | 0 => .ok
  | -1 => .err (env.setregid_errno rgid egid)
  | n => .unreachable n

end switch

/-- The process's effective identity, read by `geteuid`/`getegid` and
written by a successful `seteuid`/`setegid`. -/
structure ProcIds where
  euid : Nat
  egid : Nat
deriving DecidableEq, Repr

/-- Models `SwitchUserGuard` (`src/switch.rs`): the effective uid and gid captured
at construction, restored at disposal. -/
structure SwitchUserGuard where
  uid : Nat
  gid : Nat
deriving DecidableEq, Repr

/-- One call against the process-identity interface, for order-sensitive
properties of `switch_user_group` and the guard. -/
inductive SwitchCall where
  | geteuid
  | getegid
  | seteuid (uid : Nat)
  | setegid (gid : Nat)
deriving DecidableEq, Repr

/-- Models `switch_user_group` (`src/switch.rs`): capture the current effective
uid and gid into the guard, then `try!(set_effective_gid(gid))`, then
`try!(set_effective_uid(uid))`. The result carries the final process
identity and the calls performed; `none` models the `unreachable!()`
panic inside a setter. -/
def switch_user_group (env : SwitchEnv) (p : ProcIds) (uid gid : Nat) :
    Option (Except Nat SwitchUserGuard × ProcIds × List SwitchCall) :=
  let current_state : SwitchUserGuard := { uid := p.euid, gid := p.egid }
  match switch.set_effective_gid env gid with
  | .ok =>
    match switch.set_effective_uid env uid with
    | .ok =>
      some (.ok current_state, { euid := uid, egid := gid },
            [.geteuid, .getegid, .setegid gid, .seteuid uid])
    | .err e =>
      some (.error e, { p with egid := gid },
            [.geteuid, .getegid, .setegid gid, .seteuid uid])
    | .unreachable _ => none
  | .err e => some (.error e, p, [.geteuid, .getegid, .setegid gid])
  | .unreachable _ => none

/-- Models `switch_user_group` as written in the `src/lib.rs` snapshot: there the
order of the two mutation attempts is `try!(set_effective_uid(uid))` first,
`try!(set_effective_gid(gid))` second. -/
def lib_switch_user_group (env : SwitchEnv) (p : ProcIds) (uid gid : Nat) :
    Option (Except Nat SwitchUserGuard × ProcIds × List SwitchCall) :=
  let current_state : SwitchUserGuard := { uid := p.euid, gid := p.egid }
  match switch.set_effective_uid env uid with
  | .ok =>
    match switch.set_effective_gid env gid with
    | .ok =>
      some (.ok current_state, { euid := uid, egid := gid },
            [.geteuid, .getegid, .seteuid uid, .setegid gid])
    | .err e =>
      some (.error e, { p with euid := uid },
            [.geteuid, .getegid, .seteuid uid, .setegid gid])
    | .unreachable _ => none
  | .err e => some (.error e, p, [.geteuid, .getegid, .seteuid uid])
  | .unreachable _ => none

/-- Models `impl Drop for SwitchUserGuard` (`src/switch.rs`, `src/switch/mod.rs`,
`src/lib.rs` — all three identical): `set_effective_uid(self.uid).unwrap()`
then `set_effective_gid(self.gid).unwrap()`. `none` models the panic that
`unwrap` raises when a restoring call fails. -/
def SwitchUserGuard.drop (env : SwitchEnv) (p : ProcIds) (g : SwitchUserGuard) :
    Option (ProcIds × List SwitchCall) :=
  match switch.set_effective_uid env g.uid with
  | .ok =>
    match switch.set_effective_gid env g.gid with
    | .ok => some ({ euid := g.uid, egid := g.gid }, [.seteuid g.uid, .setegid g.gid])
    | .err _ => none
    | .unreachable _ => none
  | .err _ =>
    let _ := p
    none
  | .unreachable _ => none

/-! ## The all-users iterator (`src/base.rs`) -/

/-- One call against the OS user-database cursor. -/
inductive CursorCall where
  | setpwent
  | getpwent
  | endpwent
deriving DecidableEq, Repr

/-- The `AllUsers` iterator: the OS cursor is modelled by the list of raw
records `getpwent` has still to yield before returning null. -/
structure AllUsers where
  remaining : List User
deriving DecidableEq, Repr

/-- Models `all_users()` (`src/base.rs`): calls `setpwent` and hands out the
iterator. -/
def all_users (records : List User) : AllUsers × List CursorCall :=
  ({ remaining := records }, [.setpwent])

/-- Models `Iterator::next for AllUsers` (`src/base.rs`): one `getpwent` call;
a null result signals end-of-sequence, otherwise the record is marshalled
(`passwd_to_user`) and yielded. -/
def AllUsers.next : AllUsers → Option User × AllUsers × List CursorCall
  | { remaining := [] } => (none, { remaining := [] }, [.getpwent])
  | { remaining := u :: rest } => (some u, { remaining := rest }, [.getpwent])

/-- Models `impl Drop for AllUsers` (`src/base.rs`): one `endpwent` call. -/
def AllUsers.drop : AllUsers → List CursorCall :=
  fun _ => [.endpwent]

/-- A consumer pulling at most `k` items from the iterator, stopping early
at end-of-sequence: the items yielded, the iterator afterwards and the
cursor calls performed. -/
def AllUsers.take (it : AllUsers) : Nat → List User × AllUsers × List CursorCall
  | 0 => ([], it, [])
  | k + 1 =>
    let r := it.next
    match r.1 with
    | none => ([], r.2.1, r.2.2)
    | some u =>
      let r2 := AllUsers.take r.2.1 k
      (u :: r2.1, r2.2.1, r.2.2 ++ r2.2.2)

/-- A full client interaction: construct the iterator, pull at most `k`
items (abandoning early when `k` is small), dispose of it. Returns the
items yielded and the complete cursor-call trace. -/
def allUsersRun (records : List User) (k : Nat) : List User × List CursorCall :=
  let c := all_users records
  let t := AllUsers.take c.1 k
  (t.1, c.2 ++ t.2.2 ++ t.2.1.drop)

/-- The specification of one identity-mutation wrapper's result against
the raw primitive's return value `ret` and the `errno` it set: `Ok(())`
exactly on 0, the error carrying `errno` exactly on -1, `unreachable!()`
otherwise. -/
def OutcomeSpec (ret : Int) (errno : Nat) (out : SysOutcome) : Prop :=
  (ret = 0 → out = .ok) ∧
  (ret = -1 → out = .err errno) ∧
  (ret ≠ 0 → ret ≠ -1 → out = .unreachable ret) ∧
  (out = .ok → ret = 0) ∧
  (∀ e, out = .err e → ret = -1 ∧ e = errno)

/-! ## Concrete test fixtures -/

/-- A concrete user record, for evaluating the theorems at an input. -/
def alice : User :=
  { uid := 501, name := "alice", primary_group := 100,
    home_dir := "/home/alice", shell := "/bin/sh" }

/-- A concrete group record. -/
def staff : Group := { gid := 100, name := "staff", members := ["alice", "bob"] }

/-- A concrete, consistent raw database holding exactly `alice` and
`staff`. -/
def env0 : RawEnv :=
  { getpwuid := fun i => if i = 501 then some alice else none,
    getpwnam := fun n => if n = "alice" then some alice else none,
    getgrgid := fun i => if i = 100 then some staff else none,
    getgrnam := fun n => if n = "staff" then some staff else none,
    getuid := 501, getgid := 100, geteuid := 501, getegid := 100 }

/-- A concrete operation sequence exercising repeated and negative by-id
lookups. -/
def demoOpsC1 : List Op :=
  [Op.userByUid 501, Op.userByUid 501, Op.userByUid 777, Op.userByUid 777,
   Op.groupByGid 100]

/-- The state `demoOpsC1` leaves behind when run against `env0`. -/
def demoStateC1 : OSUsers :=
  { users := { forward := [(777, none), (501, some alice)],
               backward := [("alice", some 501)] },
    groups := { forward := [(100, some staff)], backward := [("staff", some 100)] },
    uid := none, gid := none, euid := none, egid := none }

/-- The raw calls `demoOpsC1` performs against `env0`. -/
def demoTraceC1 : List RawCall :=
  [RawCall.pwuid 501, RawCall.pwuid 777, RawCall.grgid 100]

/-- The state one `get_user_by_name "alice"` leaves on a fresh `env0`
cache. -/
def stateAlice : OSUsers :=
  { users := { forward := [(501, some alice)], backward := [("alice", some 501)] },
    groups := { forward := [], backward := [] },
    uid := none, gid := none, euid := none, egid := none }

/-- A lookup name holding an embedded null byte. -/
def nulName : String := "user\x00"

/-- A concrete operation sequence with by-name operations, for the
panic-freedom claim. -/
def demoOpsC10 : List Op :=
  [Op.userByName "alice", Op.userByUid 501, Op.userByName "alice",
   Op.currentUsername, Op.groupByName "staff", Op.groupByGid 100]

/-- Privilege-change primitives that always succeed. -/
def envOk : SwitchEnv :=
  { setuid_ret := fun _ => 0, setuid_errno := fun _ => 0,
    setgid_ret := fun _ => 0, setgid_errno := fun _ => 0,
    seteuid_ret := fun _ => 0, seteuid_errno := fun _ => 0,
    setegid_ret := fun _ => 0, setegid_errno := fun _ => 0,
    setreuid_ret := fun _ _ => 0, setreuid_errno := fun _ _ => 0,
    setregid_ret := fun _ _ => 0, setregid_errno := fun _ _ => 0 }

/-- Privilege-change primitives where `setegid` fails with `errno` 13
(`EACCES`) while every other primitive succeeds. -/
def envC4 : SwitchEnv :=
  { setuid_ret := fun _ => 0, setuid_errno := fun _ => 0,
    setgid_ret := fun _ => 0, setgid_errno := fun _ => 0,
    seteuid_ret := fun _ => 0, seteuid_errno := fun _ => 0,
    setegid_ret := fun _ => -1, setegid_errno := fun _ => 13,
    setreuid_ret := fun _ _ => 0, setreuid_errno := fun _ _ => 0,
    setregid_ret := fun _ _ => 0, setregid_errno := fun _ _ => 0 }

/-! ## Well-formedness of the raw database and the cache invariants -/

/-- The by-name lookup as the cache reaches it (`src/base/unix.rs`
`get_user_by_name`): null-byte names never reach the OS. -/
def checkedByName {V : Type} (rawN : String → Option V) (n : String) : Option V :=
  if hasNul n then none else rawN n

/-- Well-formedness of the raw OS database, the contract of
`getpwuid`/`getpwnam` (`getgrgid`/`getgrnam`): a by-id lookup returns a
record bearing the queried id, a by-name lookup a record bearing the
queried name, either lookup's result is reachable through the other index
with the same record, and marshalled names (coming out of `CStr`) never
hold an embedded null byte. -/
structure DBWF {V : Type} (raw : Nat → Option V) (rawN : String → Option V)
    (vid : V → Nat) (vname : V → String) : Prop where
  id_matches : ∀ i v, raw i = some v → vid v = i
  name_matches : ∀ n v, rawN n = some v → vname v = n
  name_to_id : ∀ n v, rawN n = some v → raw (vid v) = some v
  id_to_name : ∀ i v, raw i = some v → rawN (vname v) = some v
  name_no_nul : ∀ i v, raw i = some v → hasNul (vname v) = false

/-- Every id a backward entry resolves to is a key of the forward map: the
precondition of the direct indexing `self.users.forward[&uid]`. -/
def KeysInv {V : Type} (m : BiMap V) : Prop :=
  ∀ n i, alookup m.backward n = some (some i) → alookup m.forward i ≠ none

/-- The full cache invariant: every forward entry holds exactly the raw
database's answer for its id, every backward entry exactly the (null-byte
checked) raw answer's id for its name, resolved-present records are
registered in both indexes, and backward entries point at populated forward
keys. -/
def BiMapInv {V : Type} (raw : Nat → Option V) (rawN : String → Option V)
    (vid : V → Nat) (vname : V → String) (m : BiMap V) : Prop :=
  (∀ i, alookup m.forward i = none ∨ alookup m.forward i = some (raw i)) ∧
  (∀ n, alookup m.backward n = none ∨
    alookup m.backward n = some ((checkedByName rawN n).map vid)) ∧
  (∀ i v, alookup m.forward i = some (some v) →
    alookup m.backward (vname v) = some (some (vid v))) ∧
  KeysInv m

/-! ## Cache invariants at the `OSUsers` level -/

/-- Well-formedness of the user half of the raw database. -/
def UsersWF (env : RawEnv) : Prop :=
  DBWF env.getpwuid env.getpwnam User.uid User.name

/-- Well-formedness of the group half of the raw database. -/
def GroupsWF (env : RawEnv) : Prop :=
  DBWF env.getgrgid env.getgrnam Group.gid Group.name

/-- Well-formedness of the raw database as a whole. -/
def EnvWF (env : RawEnv) : Prop := UsersWF env ∧ GroupsWF env

/-- The cache invariant for a full `OSUsers` state. -/
def StateInv (env : RawEnv) (s : OSUsers) : Prop :=
  BiMapInv env.getpwuid env.getpwnam User.uid User.name s.users ∧
  BiMapInv env.getgrgid env.getgrnam Group.gid Group.name s.groups

/-- The inductive step of memoization counting, for one raw call `c`, one
trace `tr`, and the state of one cache cell before (`A`) and after (`B`)
the traced computation: starting from a vacant cell, the calls in the trace
plus the still-vacant flag stay within one; starting from a populated cell,
no call happens and the cell stays populated. -/
def CountSpec {α : Type} (c : RawCall) (tr : List RawCall) (A B : Option α) : Prop :=
  (A = none → countIn c tr + (if B.isNone then 1 else 0) ≤ 1) ∧
  (A ≠ none → countIn c tr = 0 ∧ B ≠ none)

theorem alookup_ainsert {α β : Type} [DecidableEq α] (m : List (α × β)) (k a : α) (v : β) :
    alookup (ainsert m k v) a = if a = k then some v else alookup m a := by
  simp [ainsert, alookup]

theorem alookup_ainsert_self {α β : Type} [DecidableEq α] (m : List (α × β)) (k : α) (v : β) :
    alookup (ainsert m k v) k = some v := by
  simp [alookup_ainsert]

theorem alookup_ainsert_ne {α β : Type} [DecidableEq α] {m : List (α × β)} {k a : α} {v : β}
    (h : a ≠ k) : alookup (ainsert m k v) a = alookup m a := by
  simp [alookup_ainsert, h]

theorem countIn_append {α : Type} [DecidableEq α] (c : α) (l1 l2 : List α) :
    countIn c (l1 ++ l2) = countIn c l1 + countIn c l2 := by
  induction l1 with
  | nil => simp [countIn]
  | cons d l ih => simp [countIn, ih]; omega

theorem countIn_nil {α : Type} [DecidableEq α] (c : α) : countIn c [] = 0 := rfl

theorem countIn_single {α : Type} [DecidableEq α] (c d : α) :
    countIn c [d] = if d = c then 1 else 0 := by
  simp [countIn]

section CacheLemmas

variable {V : Type} {raw : Nat → Option V} {rawN : String → Option V}
variable {vid : V → Nat} {vname : V → String} {evId : Nat → RawCall} {evName : String → RawCall}

theorem bimap_get_by_id_hit {m : BiMap V} {i : Nat} {c : Option V}
    (h : alookup m.forward i = some c) :
    bimap_get_by_id raw vid vname evId m i = (c, m, []) := by
  simp [bimap_get_by_id, h]

theorem bimap_get_by_id_miss_found {m : BiMap V} {i : Nat} {v : V}
    (h : alookup m.forward i = none) (hr : raw i = some v) :
    bimap_get_by_id raw vid vname evId m i =
      (some v,
       { forward := ainsert m.forward i (some v),
         backward := ainsert m.backward (vname v) (some (vid v)) },
       [evId i]) := by
  simp [bimap_get_by_id, h, hr]

theorem bimap_get_by_id_miss_absent {m : BiMap V} {i : Nat}
    (h : alookup m.forward i = none) (hr : raw i = none) :
    bimap_get_by_id raw vid vname evId m i =
      (none, { m with forward := ainsert m.forward i none }, [evId i]) := by
  simp [bimap_get_by_id, h, hr]

/-- The by-id operation leaves the forward key populated. -/
theorem bimap_get_by_id_present (m : BiMap V) (i : Nat) :
    alookup ((bimap_get_by_id raw vid vname evId m i).2.1).forward i ≠ none := by
  rcases h : alookup m.forward i with _ | c
  · rcases hr : raw i with _ | v
    · rw [bimap_get_by_id_miss_absent h hr]
      simp [alookup_ainsert_self]
    · rw [bimap_get_by_id_miss_found h hr]
      simp [alookup_ainsert_self]
  · rw [bimap_get_by_id_hit h]
    simp [h]

/-- The by-id operation can only populate forward keys, never clear them. -/
theorem bimap_get_by_id_absent {m : BiMap V} {i j : Nat}
    (h : alookup ((bimap_get_by_id raw vid vname evId m i).2.1).forward j = none) :
    alookup m.forward j = none := by
  rcases hm : alookup m.forward i with _ | c
  · rcases hr : raw i with _ | v
    · simp only [bimap_get_by_id_miss_absent hm hr] at h
      by_cases hji : j = i
      · subst hji; exact hm
      · simpa [alookup_ainsert, hji] using h
    · simp only [bimap_get_by_id_miss_found hm hr] at h
      by_cases hji : j = i
      · subst hji; simp [alookup_ainsert] at h
      · simpa [alookup_ainsert, hji] using h
  · simpa [bimap_get_by_id_hit hm] using h

/-- The raw-call trace of the by-id operation: one call on a vacant entry,
none on a hit. -/
theorem bimap_get_by_id_trace (m : BiMap V) (i : Nat) :
    (bimap_get_by_id raw vid vname evId m i).2.2 =
      if (alookup m.forward i).isNone then [evId i] else [] := by
  rcases h : alookup m.forward i with _ | c
  · rcases hr : raw i with _ | v
    · simp [bimap_get_by_id_miss_absent h hr]
    · simp [bimap_get_by_id_miss_found h hr]
  · simp [bimap_get_by_id_hit h]

/-- On a forward map satisfying the first cache invariant clause, the by-id
operation answers exactly what the raw database answers — on a hit and on a
miss alike. -/
theorem bimap_get_by_id_result {m : BiMap V} (i : Nat)
    (h1 : ∀ j, alookup m.forward j = none ∨ alookup m.forward j = some (raw j)) :
    (bimap_get_by_id raw vid vname evId m i).1 = raw i := by
  rcases (h1 i) with h | h
  · rcases hr : raw i with _ | v
    · rw [bimap_get_by_id_miss_absent h hr]
    · rw [bimap_get_by_id_miss_found h hr]
  · rw [bimap_get_by_id_hit h]

theorem bimap_get_by_name_vacant_nul {m : BiMap V} {n : String}
    (h : alookup m.backward n = none) (hn : hasNul n = true) :
    bimap_get_by_name rawN vid evName m n =
      some (none, { m with backward := ainsert m.backward n none }, []) := by
  simp [bimap_get_by_name, h, hn]

theorem bimap_get_by_name_vacant_found {m : BiMap V} {n : String} {v : V}
    (h : alookup m.backward n = none) (hn : hasNul n = false) (hr : rawN n = some v) :
    bimap_get_by_name rawN vid evName m n =
      some (some v,
            { forward := ainsert m.forward (vid v) (some v),
              backward := ainsert m.backward n (some (vid v)) },
            [evName n]) := by
  simp [bimap_get_by_name, h, hn, hr]

theorem bimap_get_by_name_vacant_absent {m : BiMap V} {n : String}
    (h : alookup m.backward n = none) (hn : hasNul n = false) (hr : rawN n = none) :
    bimap_get_by_name rawN vid evName m n =
      some (none, { m with backward := ainsert m.backward n none }, [evName n]) := by
  simp [bimap_get_by_name, h, hn, hr]

theorem bimap_get_by_name_occ_some {m : BiMap V} {n : String} {i : Nat} {c : Option V}
    (h : alookup m.backward n = some (some i)) (hf : alookup m.forward i = some c) :
    bimap_get_by_name rawN vid evName m n = some (c, m, []) := by
  simp [bimap_get_by_name, h, hf]

theorem bimap_get_by_name_occ_some_panic {m : BiMap V} {n : String} {i : Nat}
    (h : alookup m.backward n = some (some i)) (hf : alookup m.forward i = none) :
    bimap_get_by_name rawN vid evName m n = none := by
  simp [bimap_get_by_name, h, hf]

theorem bimap_get_by_name_occ_none {m : BiMap V} {n : String}
    (h : alookup m.backward n = some none) :
    bimap_get_by_name rawN vid evName m n = some (none, m, []) := by
  simp [bimap_get_by_name, h]

/-- The by-name operation only populates forward keys, never clears them. -/
theorem bimap_get_by_name_absent {m m' : BiMap V} {n : String} {r : Option V}
    {tr : List RawCall} {j : Nat}
    (heq : bimap_get_by_name rawN vid evName m n = some (r, m', tr))
    (h : alookup m'.forward j = none) : alookup m.forward j = none := by
  rcases hb : alookup m.backward n with _ | oi
  · rcases hn : hasNul n with _ | _
    · rcases hr : rawN n with _ | v
      · rw [bimap_get_by_name_vacant_absent hb hn hr] at heq
        cases heq
        exact h
      · rw [bimap_get_by_name_vacant_found hb hn hr] at heq
        cases heq
        by_cases hji : j = vid v
        · subst hji; simp [alookup_ainsert] at h
        · simpa [alookup_ainsert, hji] using h
    · rw [bimap_get_by_name_vacant_nul hb hn] at heq
      cases heq
      exact h
  · rcases oi with _ | i
    · rw [bimap_get_by_name_occ_none hb] at heq
      cases heq
      exact h
    · rcases hf : alookup m.forward i with _ | c
      · rw [bimap_get_by_name_occ_some_panic hb hf] at heq
        cases heq
      · rw [bimap_get_by_name_occ_some hb hf] at heq
        cases heq
        exact h

/-- The by-name operation performs either no raw call or exactly the one
`evName n` call. -/
theorem bimap_get_by_name_trace {m m' : BiMap V} {n : String} {r : Option V}
    {tr : List RawCall}
    (heq : bimap_get_by_name rawN vid evName m n = some (r, m', tr)) :
    tr = [] ∨ tr = [evName n] := by
  rcases hb : alookup m.backward n with _ | oi
  · rcases hn : hasNul n with _ | _
    · rcases hr : rawN n with _ | v
      · rw [bimap_get_by_name_vacant_absent hb hn hr] at heq
        cases heq; exact Or.inr rfl
      · rw [bimap_get_by_name_vacant_found hb hn hr] at heq
        cases heq; exact Or.inr rfl
    · rw [bimap_get_by_name_vacant_nul hb hn] at heq
      cases heq; exact Or.inl rfl
  · rcases oi with _ | i
    · rw [bimap_get_by_name_occ_none hb] at heq
      cases heq; exact Or.inl rfl
    · rcases hf : alookup m.forward i with _ | c
      · rw [bimap_get_by_name_occ_some_panic hb hf] at heq
        cases heq
      · rw [bimap_get_by_name_occ_some hb hf] at heq
        cases heq; exact Or.inl rfl

theorem bimap_get_by_name_lib_vacant_nul {m : BiMap V} {n : String}
    (h : alookup m.backward n = none) (hn : hasNul n = true) :
    bimap_get_by_name_lib rawN vid evName m n = some (none, m, []) := by
  simp [bimap_get_by_name_lib, h, hn]

theorem bimap_get_by_name_lib_occ_none {m : BiMap V} {n : String}
    (h : alookup m.backward n = some none) :
    bimap_get_by_name_lib rawN vid evName m n = some (none, m, []) := by
  simp [bimap_get_by_name_lib, h]

/-- The invariant `KeysInv` is preserved by the by-id operation, provided the raw by-id
lookup returns records bearing the queried id. -/
theorem keysInv_get_by_id {m : BiMap V} {i : Nat}
    (hid : ∀ j v, raw j = some v → vid v = j) (hk : KeysInv m) :
    KeysInv ((bimap_get_by_id raw vid vname evId m i).2.1) := by
  rcases hm : alookup m.forward i with _ | c
  · rcases hr : raw i with _ | v
    · simp only [bimap_get_by_id_miss_absent hm hr]
      intro n j hbw
      have hold := hk n j hbw
      by_cases hji : j = i
      · subst hji; simp [alookup_ainsert]
      · simpa [alookup_ainsert, hji] using hold
    · simp only [bimap_get_by_id_miss_found hm hr]
      intro n j hbw
      by_cases hnv : n = vname v
      · subst hnv
        rw [alookup_ainsert_self] at hbw
        cases hbw
        have : vid v = i := hid i v hr
        rw [this]
        simp [alookup_ainsert]
      · rw [alookup_ainsert_ne hnv] at hbw
        have hold := hk n j hbw
        by_cases hji : j = i
        · subst hji; simp [alookup_ainsert]
        · simpa [alookup_ainsert, hji] using hold
  · simpa [bimap_get_by_id_hit hm] using hk

/-- The invariant `KeysInv` is preserved by the by-name operation, unconditionally. -/
theorem keysInv_get_by_name {m m' : BiMap V} {n : String} {r : Option V}
    {tr : List RawCall}
    (heq : bimap_get_by_name rawN vid evName m n = some (r, m', tr))
    (hk : KeysInv m) : KeysInv m' := by
  rcases hb : alookup m.backward n with _ | oi
  · rcases hn : hasNul n with _ | _
    · rcases hr : rawN n with _ | v
      · rw [bimap_get_by_name_vacant_absent hb hn hr] at heq
        cases heq
        intro n' j hbw
        by_cases hnn : n' = n
        · subst hnn; simp [alookup_ainsert] at hbw
        · rw [alookup_ainsert_ne hnn] at hbw
          exact hk n' j hbw
      · rw [bimap_get_by_name_vacant_found hb hn hr] at heq
        cases heq
        intro n' j hbw
        by_cases hnn : n' = n
        · subst hnn
          rw [alookup_ainsert_self] at hbw
          cases hbw
          simp [alookup_ainsert]
        · rw [alookup_ainsert_ne hnn] at hbw
          have hold := hk n' j hbw
          by_cases hji : j = vid v
          · subst hji; simp [alookup_ainsert]
          · simpa [alookup_ainsert, hji] using hold
    · rw [bimap_get_by_name_vacant_nul hb hn] at heq
      cases heq
      intro n' j hbw
      by_cases hnn : n' = n
      · subst hnn; simp [alookup_ainsert] at hbw
      · rw [alookup_ainsert_ne hnn] at hbw
        exact hk n' j hbw
  · rcases oi with _ | i
    · rw [bimap_get_by_name_occ_none hb] at heq
      cases heq
      exact hk
    · rcases hf : alookup m.forward i with _ | c
      · rw [bimap_get_by_name_occ_some_panic hb hf] at heq
        cases heq
      · rw [bimap_get_by_name_occ_some hb hf] at heq
        cases heq
        exact hk

/-- The by-name operation never panics on a map whose backward entries all
point at populated forward keys. -/
theorem bimap_get_by_name_ne_none {m : BiMap V} (n : String) (hk : KeysInv m) :
    bimap_get_by_name rawN vid evName m n ≠ none := by
  rcases hb : alookup m.backward n with _ | oi
  · rcases hn : hasNul n with _ | _
    · rcases hr : rawN n with _ | v
      · rw [bimap_get_by_name_vacant_absent hb hn hr]; simp
      · rw [bimap_get_by_name_vacant_found hb hn hr]; simp
    · rw [bimap_get_by_name_vacant_nul hb hn]; simp
  · rcases oi with _ | i
    · rw [bimap_get_by_name_occ_none hb]; simp
    · rcases hf : alookup m.forward i with _ | c
      · exact absurd hf (hk n i hb)
      · rw [bimap_get_by_name_occ_some hb hf]; simp

/-- The full cache invariant is preserved by the by-id operation on a
well-formed database. -/
theorem bimapInv_get_by_id {m : BiMap V} {i : Nat}
    (W : DBWF raw rawN vid vname) (h : BiMapInv raw rawN vid vname m) :
    BiMapInv raw rawN vid vname ((bimap_get_by_id raw vid vname evId m i).2.1) := by
  obtain ⟨h1, h2, h3, h4⟩ := h
  rcases hm : alookup m.forward i with _ | c
  · rcases hr : raw i with _ | v
    · simp only [bimap_get_by_id_miss_absent hm hr]
      refine ⟨?_, h2, ?_, ?_⟩
      · intro j
        by_cases hji : j = i
        · subst hji; right; simp [alookup_ainsert, hr]
        · simpa [alookup_ainsert, hji] using h1 j
      · intro j u hfw
        by_cases hji : j = i
        · subst hji; simp [alookup_ainsert] at hfw
        · rw [alookup_ainsert_ne hji] at hfw
          exact h3 j u hfw
      · intro n j hbw
        have hold := h4 n j hbw
        by_cases hji : j = i
        · subst hji; simp [alookup_ainsert]
        · simpa [alookup_ainsert, hji] using hold
    · simp only [bimap_get_by_id_miss_found hm hr]
      have hvid : vid v = i := W.id_matches i v hr
      have hnam : rawN (vname v) = some v := W.id_to_name i v hr
      have hnul : hasNul (vname v) = false := W.name_no_nul i v hr
      refine ⟨?_, ?_, ?_, ?_⟩
      · intro j
        by_cases hji : j = i
        · subst hji; right; simp [alookup_ainsert, hr]
        · simpa [alookup_ainsert, hji] using h1 j
      · intro n
        by_cases hnv : n = vname v
        · subst hnv; right
          simp [alookup_ainsert, checkedByName, hnul, hnam, hvid]
        · simpa [alookup_ainsert, hnv] using h2 n
      · intro j u hfw
        by_cases hji : j = i
        · subst hji
          rw [alookup_ainsert_self] at hfw
          cases hfw
          simp [alookup_ainsert]
        · rw [alookup_ainsert_ne hji] at hfw
          have hold := h3 j u hfw
          by_cases huv : vname u = vname v
          · exfalso
            have hraw : raw j = some u := by
              rcases h1 j with hj | hj
              · rw [hj] at hfw; cases hfw
              · rw [hj] at hfw
                exact Option.some.inj hfw
            have h1n : rawN (vname u) = some u := W.id_to_name j u hraw
            rw [huv, hnam] at h1n
            have huv2 : v = u := Option.some.inj h1n
            apply hji
            rw [← W.id_matches j u hraw, ← huv2, hvid]
          · rw [alookup_ainsert_ne huv]
            exact hold
      · intro n j hbw
        by_cases hnv : n = vname v
        · subst hnv
          rw [alookup_ainsert_self] at hbw
          cases hbw
          rw [hvid]
          simp [alookup_ainsert]
        · rw [alookup_ainsert_ne hnv] at hbw
          have hold := h4 n j hbw
          by_cases hji : j = i
          · subst hji; simp [alookup_ainsert]
          · simpa [alookup_ainsert, hji] using hold
  · simpa [bimap_get_by_id_hit hm] using ⟨h1, h2, h3, h4⟩

/-- The full cache invariant is preserved by the by-name operation on a
well-formed database. -/
theorem bimapInv_get_by_name {m m' : BiMap V} {n : String} {r : Option V}
    {tr : List RawCall}
    (W : DBWF raw rawN vid vname)
    (heq : bimap_get_by_name rawN vid evName m n = some (r, m', tr))
    (h : BiMapInv raw rawN vid vname m) : BiMapInv raw rawN vid vname m' := by
  obtain ⟨h1, h2, h3, h4⟩ := h
  rcases hb : alookup m.backward n with _ | oi
  · rcases hn : hasNul n with _ | _
    · rcases hr : rawN n with _ | v
      · rw [bimap_get_by_name_vacant_absent hb hn hr] at heq
        cases heq
        refine ⟨h1, ?_, ?_, ?_⟩
        · intro n'
          by_cases hnn : n' = n
          · subst hnn; right; simp [alookup_ainsert, checkedByName, hn, hr]
          · simpa [alookup_ainsert, hnn] using h2 n'
        · intro j u hfw
          have hold := h3 j u hfw
          by_cases hnn : vname u = n
          · rw [hnn, hb] at hold; cases hold
          · rw [alookup_ainsert_ne hnn]
            exact hold
        · intro n' j hbw
          by_cases hnn : n' = n
          · subst hnn; simp [alookup_ainsert] at hbw
          · rw [alookup_ainsert_ne hnn] at hbw
            exact h4 n' j hbw
      · rw [bimap_get_by_name_vacant_found hb hn hr] at heq
        cases heq
        have hnam : vname v = n := W.name_matches n v hr
        have hraw : raw (vid v) = some v := W.name_to_id n v hr
        refine ⟨?_, ?_, ?_, ?_⟩
        · intro j
          by_cases hji : j = vid v
          · subst hji; right; simp [alookup_ainsert, hraw]
          · simpa [alookup_ainsert, hji] using h1 j
        · intro n'
          by_cases hnn : n' = n
          · subst hnn; right; simp [alookup_ainsert, checkedByName, hn, hr]
          · simpa [alookup_ainsert, hnn] using h2 n'
        · intro j u hfw
          by_cases hji : j = vid v
          · subst hji
            rw [alookup_ainsert_self] at hfw
            cases hfw
            rw [hnam]
            simp [alookup_ainsert]
          · rw [alookup_ainsert_ne hji] at hfw
            have hold := h3 j u hfw
            by_cases hnn : vname u = n
            · rw [hnn, hb] at hold; cases hold
            · rw [alookup_ainsert_ne hnn]
              exact hold
        · intro n' j hbw
          by_cases hnn : n' = n
          · subst hnn
            rw [alookup_ainsert_self] at hbw
            cases hbw
            simp [alookup_ainsert]
          · rw [alookup_ainsert_ne hnn] at hbw
            have hold := h4 n' j hbw
            by_cases hji : j = vid v
            · subst hji; simp [alookup_ainsert]
            · simpa [alookup_ainsert, hji] using hold
    · rw [bimap_get_by_name_vacant_nul hb hn] at heq
      cases heq
      refine ⟨h1, ?_, ?_, ?_⟩
      · intro n'
        by_cases hnn : n' = n
        · subst hnn; right; simp [alookup_ainsert, checkedByName, hn]
        · simpa [alookup_ainsert, hnn] using h2 n'
      · intro j u hfw
        have hold := h3 j u hfw
        by_cases hnn : vname u = n
        · rw [hnn, hb] at hold; cases hold
        · rw [alookup_ainsert_ne hnn]
          exact hold
      · intro n' j hbw
        by_cases hnn : n' = n
        · subst hnn; simp [alookup_ainsert] at hbw
        · rw [alookup_ainsert_ne hnn] at hbw
          exact h4 n' j hbw
  · rcases oi with _ | i
    · rw [bimap_get_by_name_occ_none hb] at heq
      cases heq
      exact ⟨h1, h2, h3, h4⟩
    · rcases hf : alookup m.forward i with _ | c
      · rw [bimap_get_by_name_occ_some_panic hb hf] at heq
        cases heq
      · rw [bimap_get_by_name_occ_some hb hf] at heq
        cases heq
        exact ⟨h1, h2, h3, h4⟩

/-- When the by-name operation resolves a present record on an invariant
state of a well-formed database, the record bears the looked-up name, the
raw database confirms it under its id, and the resulting state has it
cached under its id in the forward map. -/
theorem bimap_get_by_name_found {m m' : BiMap V} {n : String} {v : V}
    {tr : List RawCall}
    (W : DBWF raw rawN vid vname) (hInv : BiMapInv raw rawN vid vname m)
    (heq : bimap_get_by_name rawN vid evName m n = some (some v, m', tr)) :
    vname v = n ∧ raw (vid v) = some v ∧
      alookup m'.forward (vid v) = some (some v) := by
  obtain ⟨h1, h2, h3, h4⟩ := hInv
  rcases hb : alookup m.backward n with _ | oi
  · rcases hn : hasNul n with _ | _
    · rcases hr : rawN n with _ | w
      · rw [bimap_get_by_name_vacant_absent hb hn hr] at heq
        cases heq
      · rw [bimap_get_by_name_vacant_found hb hn hr] at heq
        cases heq
        exact ⟨W.name_matches n v hr, W.name_to_id n v hr, by simp [alookup_ainsert]⟩
    · rw [bimap_get_by_name_vacant_nul hb hn] at heq
      cases heq
  · rcases oi with _ | i
    · rw [bimap_get_by_name_occ_none hb] at heq
      cases heq
    · rcases hf : alookup m.forward i with _ | c
      · rw [bimap_get_by_name_occ_some_panic hb hf] at heq
        cases heq
      · rw [bimap_get_by_name_occ_some hb hf] at heq
        cases heq
        have hraw : raw i = some v := by
          rcases h1 i with hj | hj
          · rw [hj] at hf; cases hf
          · rw [hj] at hf
            exact Option.some.inj hf
        have hvid : vid v = i := W.id_matches i v hraw
        have hnam : vname v = n := by
          rcases h2 n with hj | hj
          · rw [hj] at hb; cases hb
          · rw [hj] at hb
            have hmap := Option.some.inj hb
            rcases hw : checkedByName rawN n with _ | w
            · rw [hw] at hmap; cases hmap
            · rw [hw] at hmap
              have hwi : vid w = i := Option.some.inj hmap
              have hrawN : rawN n = some w := by
                unfold checkedByName at hw
                rcases hn2 : hasNul n with _ | _
                · rwa [hn2, if_neg (by simp)] at hw
                · rw [hn2, if_pos rfl] at hw; cases hw
              have hraww : raw (vid w) = some w := W.name_to_id n w hrawN
              rw [hwi, hraw] at hraww
              have : v = w := Option.some.inj hraww
              rw [this]
              exact W.name_matches n w hrawN
        refine ⟨hnam, by rw [hvid]; exact hraw, by rw [hvid]; exact hf⟩

/-- The result and the trace of the by-name operation depend only on the
backward entry for that name and on the forward map. -/
theorem bimap_get_by_name_congr {m1 m2 : BiMap V} {k : String}
    (hb : alookup m1.backward k = alookup m2.backward k)
    (hf : m1.forward = m2.forward) {r1 r2 : Option V} {m1' m2' : BiMap V}
    {tr1 tr2 : List RawCall}
    (e1 : bimap_get_by_name rawN vid evName m1 k = some (r1, m1', tr1))
    (e2 : bimap_get_by_name rawN vid evName m2 k = some (r2, m2', tr2)) :
    r1 = r2 ∧ tr1 = tr2 := by
  rcases h2b : alookup m2.backward k with _ | oi
  · rw [h2b] at hb
    rcases hn : hasNul k with _ | _
    · rcases hr : rawN k with _ | v
      · rw [bimap_get_by_name_vacant_absent hb hn hr] at e1
        rw [bimap_get_by_name_vacant_absent h2b hn hr] at e2
        cases e1; cases e2; exact ⟨rfl, rfl⟩
      · rw [bimap_get_by_name_vacant_found hb hn hr] at e1
        rw [bimap_get_by_name_vacant_found h2b hn hr] at e2
        cases e1; cases e2; exact ⟨rfl, rfl⟩
    · rw [bimap_get_by_name_vacant_nul hb hn] at e1
      rw [bimap_get_by_name_vacant_nul h2b hn] at e2
      cases e1; cases e2; exact ⟨rfl, rfl⟩
  · rw [h2b] at hb
    rcases oi with _ | i
    · rw [bimap_get_by_name_occ_none hb] at e1
      rw [bimap_get_by_name_occ_none h2b] at e2
      cases e1; cases e2; exact ⟨rfl, rfl⟩
    · rcases hfm : alookup m2.forward i with _ | c
      · rw [bimap_get_by_name_occ_some_panic h2b hfm] at e2
        cases e2
      · rw [bimap_get_by_name_occ_some h2b hfm] at e2
        rw [bimap_get_by_name_occ_some hb (by rw [hf]; exact hfm)] at e1
        cases e1; cases e2; exact ⟨rfl, rfl⟩

end CacheLemmas

theorem some_pair_inj {α β : Type} {a c : α} {b d : β}
    (h : some (a, b) = some (c, d)) : a = c ∧ b = d := by
  have h2 := Option.some.inj h
  exact ⟨congrArg Prod.fst h2, congrArg Prod.snd h2⟩

theorem some_triple_inj {α β γ : Type} {a1 a2 : α} {b1 b2 : β} {c1 c2 : γ}
    (h : some (a1, b1, c1) = some (a2, b2, c2)) :
    a1 = a2 ∧ b1 = b2 ∧ c1 = c2 := by
  have h2 := Option.some.inj h
  exact ⟨congrArg Prod.fst h2, congrArg (fun x => x.2.1) h2,
         congrArg (fun x => x.2.2) h2⟩

theorem get_current_uid_frame (env : RawEnv) (s : OSUsers) :
    ((OSUsers.get_current_uid env s).2.1).users = s.users ∧
    ((OSUsers.get_current_uid env s).2.1).groups = s.groups ∧
    ((OSUsers.get_current_uid env s).2.2 = [] ∨
      (OSUsers.get_current_uid env s).2.2 = [RawCall.uid]) := by
  cases h : s.uid <;> simp [OSUsers.get_current_uid, h]

theorem get_current_gid_frame (env : RawEnv) (s : OSUsers) :
    ((OSUsers.get_current_gid env s).2.1).users = s.users ∧
    ((OSUsers.get_current_gid env s).2.1).groups = s.groups ∧
    ((OSUsers.get_current_gid env s).2.2 = [] ∨
      (OSUsers.get_current_gid env s).2.2 = [RawCall.gid]) := by
  cases h : s.gid <;> simp [OSUsers.get_current_gid, h]

theorem get_effective_uid_frame (env : RawEnv) (s : OSUsers) :
    ((OSUsers.get_effective_uid env s).2.1).users = s.users ∧
    ((OSUsers.get_effective_uid env s).2.1).groups = s.groups ∧
    ((OSUsers.get_effective_uid env s).2.2 = [] ∨
      (OSUsers.get_effective_uid env s).2.2 = [RawCall.euid]) := by
  cases h : s.euid <;> simp [OSUsers.get_effective_uid, h]

theorem get_effective_gid_frame (env : RawEnv) (s : OSUsers) :
    ((OSUsers.get_effective_gid env s).2.1).users = s.users ∧
    ((OSUsers.get_effective_gid env s).2.1).groups = s.groups ∧
    ((OSUsers.get_effective_gid env s).2.2 = [] ∨
      (OSUsers.get_effective_gid env s).2.2 = [RawCall.egid]) := by
  cases h : s.egid <;> simp [OSUsers.get_effective_gid, h]

/-- Every cache operation preserves the full cache invariant on a
well-formed database. -/
theorem runOp_stateInv {env : RawEnv} {s s' : OSUsers} {op : Op}
    {tr : List RawCall} (W : EnvWF env) (h : StateInv env s)
    (heq : runOp env s op = some (s', tr)) : StateInv env s' := by
  cases op with
  | userByUid i =>
    simp only [runOp, OSUsers.get_user_by_uid] at heq
    obtain ⟨hs, -⟩ := some_pair_inj heq
    subst hs
    exact ⟨bimapInv_get_by_id W.1 h.1, h.2⟩
  | userByName n =>
    simp only [runOp, OSUsers.get_user_by_name] at heq
    rcases hb : bimap_get_by_name env.getpwnam User.uid RawCall.pwnam s.users n with _ | r
    · rw [hb] at heq; cases heq
    · rw [hb] at heq
      simp only [Option.map] at heq
      obtain ⟨hs, -⟩ := some_pair_inj heq
      subst hs
      exact ⟨bimapInv_get_by_name W.1 hb h.1, h.2⟩
  | groupByGid i =>
    simp only [runOp, OSUsers.get_group_by_gid] at heq
    obtain ⟨hs, -⟩ := some_pair_inj heq
    subst hs
    exact ⟨h.1, bimapInv_get_by_id W.2 h.2⟩
  | groupByName n =>
    simp only [runOp, OSUsers.get_group_by_name] at heq
    rcases hb : bimap_get_by_name env.getgrnam Group.gid RawCall.grnam s.groups n with _ | r
    · rw [hb] at heq; cases heq
    · rw [hb] at heq
      simp only [Option.map] at heq
      obtain ⟨hs, -⟩ := some_pair_inj heq
      subst hs
      exact ⟨h.1, bimapInv_get_by_name W.2 hb h.2⟩
  | currentUid =>
    simp only [runOp] at heq
    obtain ⟨hs, -⟩ := some_pair_inj heq
    subst hs
    have hf := get_current_uid_frame env s
    exact ⟨by rw [hf.1]; exact h.1, by rw [hf.2.1]; exact h.2⟩
  | currentGid =>
    simp only [runOp] at heq
    obtain ⟨hs, -⟩ := some_pair_inj heq
    subst hs
    have hf := get_current_gid_frame env s
    exact ⟨by rw [hf.1]; exact h.1, by rw [hf.2.1]; exact h.2⟩
  | effectiveUid =>
    simp only [runOp] at heq
    obtain ⟨hs, -⟩ := some_pair_inj heq
    subst hs
    have hf := get_effective_uid_frame env s
    exact ⟨by rw [hf.1]; exact h.1, by rw [hf.2.1]; exact h.2⟩
  | effectiveGid =>
    simp only [runOp] at heq
    obtain ⟨hs, -⟩ := some_pair_inj heq
    subst hs
    have hf := get_effective_gid_frame env s
    exact ⟨by rw [hf.1]; exact h.1, by rw [hf.2.1]; exact h.2⟩
  | currentUsername =>
    simp only [runOp] at heq
    obtain ⟨hs, -⟩ := some_pair_inj heq
    subst hs
    have hf := get_current_uid_frame env s
    have hmid : StateInv env ((OSUsers.get_current_uid env s).2.1) :=
      ⟨by rw [hf.1]; exact h.1, by rw [hf.2.1]; exact h.2⟩
    exact ⟨bimapInv_get_by_id W.1 hmid.1, hmid.2⟩
  | currentGroupname =>
    simp only [runOp] at heq
    obtain ⟨hs, -⟩ := some_pair_inj heq
    subst hs
    have hf := get_current_gid_frame env s
    have hmid : StateInv env ((OSUsers.get_current_gid env s).2.1) :=
      ⟨by rw [hf.1]; exact h.1, by rw [hf.2.1]; exact h.2⟩
    exact ⟨hmid.1, bimapInv_get_by_id W.2 hmid.2⟩
  | effectiveUsername =>
    simp only [runOp] at heq
    obtain ⟨hs, -⟩ := some_pair_inj heq
    subst hs
    have hf := get_effective_uid_frame env s
    have hmid : StateInv env ((OSUsers.get_effective_uid env s).2.1) :=
      ⟨by rw [hf.1]; exact h.1, by rw [hf.2.1]; exact h.2⟩
    exact ⟨bimapInv_get_by_id W.1 hmid.1, hmid.2⟩
  | effectiveGroupname =>
    simp only [runOp] at heq
    obtain ⟨hs, -⟩ := some_pair_inj heq
    subst hs
    have hf := get_effective_gid_frame env s
    have hmid : StateInv env ((OSUsers.get_effective_gid env s).2.1) :=
      ⟨by rw [hf.1]; exact h.1, by rw [hf.2.1]; exact h.2⟩
    exact ⟨hmid.1, bimapInv_get_by_id W.2 hmid.2⟩

/-- Any sequence of cache operations preserves the full cache invariant on
a well-formed database. -/
theorem runOps_stateInv {env : RawEnv} (W : EnvWF env) :
    ∀ (ops : List Op) (s s' : OSUsers) (tr : List RawCall),
      StateInv env s → runOps env s ops = some (s', tr) → StateInv env s' := by
  intro ops
  induction ops with
  | nil =>
    intro s s' tr h heq
    obtain ⟨hs, -⟩ := some_pair_inj heq
    subst hs
    exact h
  | cons op rest ih =>
    intro s s' tr h heq
    simp only [runOps] at heq
    split at heq
    · cases heq
    · rename_i s1 tr1 h1
      split at heq
      · cases heq
      · rename_i s2 tr2 h2
        obtain ⟨hs, -⟩ := some_pair_inj heq
        subst hs
        exact ih s1 s2 tr2 (runOp_stateInv W h h1) h2

/-- The empty cache satisfies the invariant. -/
theorem stateInv_empty (env : RawEnv) : StateInv env OSUsers.empty_cache := by
  constructor <;> refine ⟨fun _ => Or.inl rfl, fun _ => Or.inl rfl, ?_, ?_⟩ <;>
    intro a b hx <;> simp [OSUsers.empty_cache, alookup] at hx

/-- Under the sole assumption that raw by-id lookups return records bearing
the queried id, every cache operation completes without panicking and
keeps every backward-resolved id a key of the forward map, in both
indexes. -/
theorem runOp_keys {env : RawEnv} {s : OSUsers} {op : Op}
    (hidU : ∀ j v, env.getpwuid j = some v → v.uid = j)
    (hidG : ∀ j v, env.getgrgid j = some v → v.gid = j)
    (hU : KeysInv s.users) (hG : KeysInv s.groups) :
    runOp env s op ≠ none ∧
    ∀ s' tr, runOp env s op = some (s', tr) →
      KeysInv s'.users ∧ KeysInv s'.groups := by
  cases op with
  | userByUid i =>
    refine ⟨by simp [runOp], ?_⟩
    intro s' tr heq
    simp only [runOp, OSUsers.get_user_by_uid] at heq
    obtain ⟨hs, -⟩ := some_pair_inj heq
    subst hs
    exact ⟨keysInv_get_by_id hidU hU, hG⟩
  | userByName n =>
    have hne := @bimap_get_by_name_ne_none User env.getpwnam User.uid RawCall.pwnam s.users n hU
    constructor
    · simp only [runOp, OSUsers.get_user_by_name]
      intro hc
      rcases hb : bimap_get_by_name env.getpwnam User.uid RawCall.pwnam s.users n with _ | r
      · exact hne hb
      · rw [hb] at hc; cases hc
    · intro s' tr heq
      simp only [runOp, OSUsers.get_user_by_name] at heq
      rcases hb : bimap_get_by_name env.getpwnam User.uid RawCall.pwnam s.users n with _ | r
      · rw [hb] at heq; cases heq
      · rw [hb] at heq
        simp only [Option.map] at heq
        obtain ⟨hs, -⟩ := some_pair_inj heq
        subst hs
        exact ⟨keysInv_get_by_name hb hU, hG⟩
  | groupByGid i =>
    refine ⟨by simp [runOp], ?_⟩
    intro s' tr heq
    simp only [runOp, OSUsers.get_group_by_gid] at heq
    obtain ⟨hs, -⟩ := some_pair_inj heq
    subst hs
    exact ⟨hU, keysInv_get_by_id hidG hG⟩
  | groupByName n =>
    have hne := @bimap_get_by_name_ne_none Group env.getgrnam Group.gid RawCall.grnam s.groups n hG
    constructor
    · simp only [runOp, OSUsers.get_group_by_name]
      intro hc
      rcases hb : bimap_get_by_name env.getgrnam Group.gid RawCall.grnam s.groups n with _ | r
      · exact hne hb
      · rw [hb] at hc; cases hc
    · intro s' tr heq
      simp only [runOp, OSUsers.get_group_by_name] at heq
      rcases hb : bimap_get_by_name env.getgrnam Group.gid RawCall.grnam s.groups n with _ | r
      · rw [hb] at heq; cases heq
      · rw [hb] at heq
        simp only [Option.map] at heq
        obtain ⟨hs, -⟩ := some_pair_inj heq
        subst hs
        exact ⟨hU, keysInv_get_by_name hb hG⟩
  | currentUid =>
    refine ⟨by simp [runOp], ?_⟩
    intro s' tr heq
    simp only [runOp] at heq
    obtain ⟨hs, -⟩ := some_pair_inj heq
    subst hs
    have hf := get_current_uid_frame env s
    exact ⟨by rw [hf.1]; exact hU, by rw [hf.2.1]; exact hG⟩
  | currentGid =>
    refine ⟨by simp [runOp], ?_⟩
    intro s' tr heq
    simp only [runOp] at heq
    obtain ⟨hs, -⟩ := some_pair_inj heq
    subst hs
    have hf := get_current_gid_frame env s
    exact ⟨by rw [hf.1]; exact hU, by rw [hf.2.1]; exact hG⟩
  | effectiveUid =>
    refine ⟨by simp [runOp], ?_⟩
    intro s' tr heq
    simp only [runOp] at heq
    obtain ⟨hs, -⟩ := some_pair_inj heq
    subst hs
    have hf := get_effective_uid_frame env s
    exact ⟨by rw [hf.1]; exact hU, by rw [hf.2.1]; exact hG⟩
  | effectiveGid =>
    refine ⟨by simp [runOp], ?_⟩
    intro s' tr heq
    simp only [runOp] at heq
    obtain ⟨hs, -⟩ := some_pair_inj heq
    subst hs
    have hf := get_effective_gid_frame env s
    exact ⟨by rw [hf.1]; exact hU, by rw [hf.2.1]; exact hG⟩
  | currentUsername =>
    refine ⟨by simp [runOp], ?_⟩
    intro s' tr heq
    simp only [runOp] at heq
    obtain ⟨hs, -⟩ := some_pair_inj heq
    subst hs
    have hf := get_current_uid_frame env s
    have hU1 : KeysInv ((OSUsers.get_current_uid env s).2.1).users := by
      rw [hf.1]; exact hU
    have hG1 : KeysInv ((OSUsers.get_current_uid env s).2.1).groups := by
      rw [hf.2.1]; exact hG
    exact ⟨keysInv_get_by_id hidU hU1, hG1⟩
  | currentGroupname =>
    refine ⟨by simp [runOp], ?_⟩
    intro s' tr heq
    simp only [runOp] at heq
    obtain ⟨hs, -⟩ := some_pair_inj heq
    subst hs
    have hf := get_current_gid_frame env s
    have hU1 : KeysInv ((OSUsers.get_current_gid env s).2.1).users := by
      rw [hf.1]; exact hU
    have hG1 : KeysInv ((OSUsers.get_current_gid env s).2.1).groups := by
      rw [hf.2.1]; exact hG
    exact ⟨hU1, keysInv_get_by_id hidG hG1⟩
  | effectiveUsername =>
    refine ⟨by simp [runOp], ?_⟩
    intro s' tr heq
    simp only [runOp] at heq
    obtain ⟨hs, -⟩ := some_pair_inj heq
    subst hs
    have hf := get_effective_uid_frame env s
    have hU1 : KeysInv ((OSUsers.get_effective_uid env s).2.1).users := by
      rw [hf.1]; exact hU
    have hG1 : KeysInv ((OSUsers.get_effective_uid env s).2.1).groups := by
      rw [hf.2.1]; exact hG
    exact ⟨keysInv_get_by_id hidU hU1, hG1⟩
  | effectiveGroupname =>
    refine ⟨by simp [runOp], ?_⟩
    intro s' tr heq
    simp only [runOp] at heq
    obtain ⟨hs, -⟩ := some_pair_inj heq
    subst hs
    have hf := get_effective_gid_frame env s
    have hU1 : KeysInv ((OSUsers.get_effective_gid env s).2.1).users := by
      rw [hf.1]; exact hU
    have hG1 : KeysInv ((OSUsers.get_effective_gid env s).2.1).groups := by
      rw [hf.2.1]; exact hG
    exact ⟨hU1, keysInv_get_by_id hidG hG1⟩

/-- Under the by-id well-formedness assumption alone, every sequence of
cache operations runs to completion (no panic) and every state it reaches
keeps backward-resolved ids as forward keys. -/
theorem runOps_keys {env : RawEnv}
    (hidU : ∀ j v, env.getpwuid j = some v → v.uid = j)
    (hidG : ∀ j v, env.getgrgid j = some v → v.gid = j) :
    ∀ (ops : List Op) (s : OSUsers), KeysInv s.users → KeysInv s.groups →
      runOps env s ops ≠ none ∧
      ∀ s' tr, runOps env s ops = some (s', tr) →
        KeysInv s'.users ∧ KeysInv s'.groups := by
  intro ops
  induction ops with
  | nil =>
    intro s hU hG
    refine ⟨by simp [runOps], ?_⟩
    intro s' tr heq
    obtain ⟨hs, -⟩ := some_pair_inj heq
    subst hs
    exact ⟨hU, hG⟩
  | cons op rest ih =>
    intro s hU hG
    obtain ⟨hop_ne, hop_pres⟩ := @runOp_keys env s op hidU hidG hU hG
    constructor
    · simp only [runOps]
      intro hc
      split at hc
      · exact hop_ne (by assumption)
      · rename_i s1 tr1 h1
        obtain ⟨hU1, hG1⟩ := hop_pres s1 tr1 h1
        obtain ⟨hrest_ne, -⟩ := ih s1 hU1 hG1
        split at hc
        · exact hrest_ne (by assumption)
        · cases hc
    · intro s' tr heq
      simp only [runOps] at heq
      split at heq
      · cases heq
      · rename_i s1 tr1 h1
        obtain ⟨hU1, hG1⟩ := hop_pres s1 tr1 h1
        split at heq
        · cases heq
        · rename_i s2 tr2 h2
          obtain ⟨hs, -⟩ := some_pair_inj heq
          subst hs
          exact (ih s1 hU1 hG1).2 s2 tr2 h2

/-! ## Counting raw calls -/

theorem CountSpec.seq {α : Type} {c : RawCall} {tr1 tr2 : List RawCall}
    {A B C : Option α} (h1 : CountSpec c tr1 A B) (h2 : CountSpec c tr2 B C) :
    CountSpec c (tr1 ++ tr2) A C := by
  constructor
  · intro hA
    rw [countIn_append]
    rcases hB : B with _ | b
    · have g1 := h1.1 hA
      rw [hB] at g1
      simp at g1
      have g2 := h2.1 hB
      omega
    · have g1 := h1.1 hA
      rw [hB] at g1
      simp at g1
      have g2 := h2.2 (by rw [hB]; exact fun hc => Option.noConfusion hc)
      rcases hC : C with _ | cc
      · exact absurd hC g2.2
      · simp
        omega
  · intro hA
    have g1 := h1.2 hA
    have g2 := h2.2 g1.2
    rw [countIn_append, g1.1, g2.1]
    exact ⟨rfl, g2.2⟩

/-- A computation that performs no `c` call and can only populate the cell
satisfies the counting step. -/
theorem countSpec_of_mono {α : Type} {c : RawCall} {tr : List RawCall}
    {A B : Option α} (habs : B = none → A = none) (hc : countIn c tr = 0) :
    CountSpec c tr A B := by
  refine ⟨fun _ => ?_, fun h => ⟨hc, fun hB => h (habs hB)⟩⟩
  rw [hc]
  split <;> omega

section CacheCountLemmas

variable {V : Type} {raw : Nat → Option V} {rawN : String → Option V}
variable {vid : V → Nat} {vname : V → String} {evId : Nat → RawCall} {evName : String → RawCall}

/-- The by-id operation satisfies the counting step for its own family of
raw calls. -/
theorem countSpec_get_by_id (hinj : ∀ a b, evId a = evId b → a = b)
    (m : BiMap V) (j i : Nat) :
    CountSpec (evId i) (bimap_get_by_id raw vid vname evId m j).2.2
      (alookup m.forward i)
      (alookup ((bimap_get_by_id raw vid vname evId m j).2.1).forward i) := by
  constructor
  · intro habs
    by_cases hji : j = i
    · subst hji
      have hpres := @bimap_get_by_id_present V raw vid vname evId m j
      rw [bimap_get_by_id_trace, habs]
      rcases hx : alookup ((bimap_get_by_id raw vid vname evId m j).2.1).forward j with _ | c
      · exact absurd hx hpres
      · simp [countIn, hx]
    · rw [bimap_get_by_id_trace]
      have hcount : countIn (evId i)
          (if (alookup m.forward j).isNone then [evId j] else []) = 0 := by
        split
        · simp only [countIn]
          rw [if_neg (fun hc => hji (hinj _ _ hc))]
        · rfl
      rw [hcount]
      split <;> omega
  · intro hpres
    refine ⟨?_, fun hc => hpres (bimap_get_by_id_absent hc)⟩
    rw [bimap_get_by_id_trace]
    rcases hx : alookup m.forward j with _ | c
    · by_cases hji : j = i
      · subst hji
        exact absurd hx hpres
      · simp only [Option.isNone_none, countIn, if_true]
        rw [if_neg (fun hc => hji (hinj _ _ hc))]
    · simp [countIn]

/-- The by-id operation performs no raw call outside its own family. -/
theorem bimap_get_by_id_count_other {c : RawCall} (hne : ∀ a, evId a ≠ c)
    (m : BiMap V) (j : Nat) :
    countIn c (bimap_get_by_id raw vid vname evId m j).2.2 = 0 := by
  rw [bimap_get_by_id_trace]
  split
  · simp only [countIn]
    rw [if_neg (hne j)]
  · rfl

/-- The by-name operation performs no raw call outside its single by-name
call. -/
theorem bimap_get_by_name_count_other {c : RawCall} {m m' : BiMap V} {n : String}
    {r : Option V} {tr : List RawCall} (hne : evName n ≠ c)
    (heq : bimap_get_by_name rawN vid evName m n = some (r, m', tr)) :
    countIn c tr = 0 := by
  rcases bimap_get_by_name_trace heq with h | h <;> subst h
  · rfl
  · simp only [countIn]
    rw [if_neg hne]

end CacheCountLemmas

theorem pwuid_inj : ∀ a b : Nat, RawCall.pwuid a = RawCall.pwuid b → a = b :=
  fun _ _ h => RawCall.pwuid.inj h

theorem grgid_inj : ∀ a b : Nat, RawCall.grgid a = RawCall.grgid b → a = b :=
  fun _ _ h => RawCall.grgid.inj h

/-- Every cache operation satisfies the counting step for `getpwuid i` on
the user forward map and for `getgrgid i` on the group forward map. -/
theorem runOp_countSpec {env : RawEnv} {s s' : OSUsers} {op : Op}
    {tr : List RawCall} (heq : runOp env s op = some (s', tr)) (i : Nat) :
    CountSpec (RawCall.pwuid i) tr
      (alookup s.users.forward i) (alookup s'.users.forward i) ∧
    CountSpec (RawCall.grgid i) tr
      (alookup s.groups.forward i) (alookup s'.groups.forward i) := by
  cases op with
  | userByUid j =>
    simp only [runOp, OSUsers.get_user_by_uid] at heq
    obtain ⟨hs, htr⟩ := some_pair_inj heq
    subst hs; subst htr
    exact ⟨countSpec_get_by_id pwuid_inj s.users j i,
           countSpec_of_mono (fun h => h)
             (bimap_get_by_id_count_other (fun _ hc => RawCall.noConfusion hc) s.users j)⟩
  | userByName n =>
    simp only [runOp, OSUsers.get_user_by_name] at heq
    rcases hb : bimap_get_by_name env.getpwnam User.uid RawCall.pwnam s.users n with _ | ⟨rv, rm, rtr⟩
    · rw [hb] at heq; cases heq
    · rw [hb] at heq
      simp only [Option.map] at heq
      obtain ⟨hs, htr⟩ := some_pair_inj heq
      subst hs; subst htr
      exact ⟨countSpec_of_mono (fun h => bimap_get_by_name_absent hb h)
               (bimap_get_by_name_count_other (fun hc => RawCall.noConfusion hc) hb),
             countSpec_of_mono (fun h => h)
               (bimap_get_by_name_count_other (fun hc => RawCall.noConfusion hc) hb)⟩
  | groupByGid j =>
    simp only [runOp, OSUsers.get_group_by_gid] at heq
    obtain ⟨hs, htr⟩ := some_pair_inj heq
    subst hs; subst htr
    exact ⟨countSpec_of_mono (fun h => h)
             (bimap_get_by_id_count_other (fun _ hc => RawCall.noConfusion hc) s.groups j),
           countSpec_get_by_id grgid_inj s.groups j i⟩
  | groupByName n =>
    simp only [runOp, OSUsers.get_group_by_name] at heq
    rcases hb : bimap_get_by_name env.getgrnam Group.gid RawCall.grnam s.groups n with _ | ⟨rv, rm, rtr⟩
    · rw [hb] at heq; cases heq
    · rw [hb] at heq
      simp only [Option.map] at heq
      obtain ⟨hs, htr⟩ := some_pair_inj heq
      subst hs; subst htr
      exact ⟨countSpec_of_mono (fun h => h)
               (bimap_get_by_name_count_other (fun hc => RawCall.noConfusion hc) hb),
             countSpec_of_mono (fun h => bimap_get_by_name_absent hb h)
               (bimap_get_by_name_count_other (fun hc => RawCall.noConfusion hc) hb)⟩
  | currentUid =>
    simp only [runOp] at heq
    obtain ⟨hs, htr⟩ := some_pair_inj heq
    subst hs; subst htr
    have hf := get_current_uid_frame env s
    have hcU : countIn (RawCall.pwuid i) (OSUsers.get_current_uid env s).2.2 = 0 := by
      rcases hf.2.2 with h | h <;> rw [h] <;> simp [countIn]
    have hcG : countIn (RawCall.grgid i) (OSUsers.get_current_uid env s).2.2 = 0 := by
      rcases hf.2.2 with h | h <;> rw [h] <;> simp [countIn]
    exact ⟨countSpec_of_mono (fun h => by rw [hf.1] at h; exact h) hcU,
           countSpec_of_mono (fun h => by rw [hf.2.1] at h; exact h) hcG⟩
  | currentGid =>
    simp only [runOp] at heq
    obtain ⟨hs, htr⟩ := some_pair_inj heq
    subst hs; subst htr
    have hf := get_current_gid_frame env s
    have hcU : countIn (RawCall.pwuid i) (OSUsers.get_current_gid env s).2.2 = 0 := by
      rcases hf.2.2 with h | h <;> rw [h] <;> simp [countIn]
    have hcG : countIn (RawCall.grgid i) (OSUsers.get_current_gid env s).2.2 = 0 := by
      rcases hf.2.2 with h | h <;> rw [h] <;> simp [countIn]
    exact ⟨countSpec_of_mono (fun h => by rw [hf.1] at h; exact h) hcU,
           countSpec_of_mono (fun h => by rw [hf.2.1] at h; exact h) hcG⟩
  | effectiveUid =>
    simp only [runOp] at heq
    obtain ⟨hs, htr⟩ := some_pair_inj heq
    subst hs; subst htr
    have hf := get_effective_uid_frame env s
    have hcU : countIn (RawCall.pwuid i) (OSUsers.get_effective_uid env s).2.2 = 0 := by
      rcases hf.2.2 with h | h <;> rw [h] <;> simp [countIn]
    have hcG : countIn (RawCall.grgid i) (OSUsers.get_effective_uid env s).2.2 = 0 := by
      rcases hf.2.2 with h | h <;> rw [h] <;> simp [countIn]
    exact ⟨countSpec_of_mono (fun h => by rw [hf.1] at h; exact h) hcU,
           countSpec_of_mono (fun h => by rw [hf.2.1] at h; exact h) hcG⟩
  | effectiveGid =>
    simp only [runOp] at heq
    obtain ⟨hs, htr⟩ := some_pair_inj heq
    subst hs; subst htr
    have hf := get_effective_gid_frame env s
    have hcU : countIn (RawCall.pwuid i) (OSUsers.get_effective_gid env s).2.2 = 0 := by
      rcases hf.2.2 with h | h <;> rw [h] <;> simp [countIn]
    have hcG : countIn (RawCall.grgid i) (OSUsers.get_effective_gid env s).2.2 = 0 := by
      rcases hf.2.2 with h | h <;> rw [h] <;> simp [countIn]
    exact ⟨countSpec_of_mono (fun h => by rw [hf.1] at h; exact h) hcU,
           countSpec_of_mono (fun h => by rw [hf.2.1] at h; exact h) hcG⟩
  | currentUsername =>
    simp only [runOp] at heq
    obtain ⟨hs, htr⟩ := some_pair_inj heq
    subst hs; subst htr
    have hf := get_current_uid_frame env s
    have hcU : countIn (RawCall.pwuid i) (OSUsers.get_current_uid env s).2.2 = 0 := by
      rcases hf.2.2 with h | h <;> rw [h] <;> simp [countIn]
    have hcG : countIn (RawCall.grgid i) (OSUsers.get_current_uid env s).2.2 = 0 := by
      rcases hf.2.2 with h | h <;> rw [h] <;> simp [countIn]
    refine ⟨CountSpec.seq (B := alookup ((OSUsers.get_current_uid env s).2.1).users.forward i)
              (countSpec_of_mono (fun h => by rw [hf.1] at h; exact h) hcU) ?_,
            CountSpec.seq (B := alookup ((OSUsers.get_current_uid env s).2.1).groups.forward i)
              (countSpec_of_mono (fun h => by rw [hf.2.1] at h; exact h) hcG) ?_⟩
    · exact countSpec_get_by_id pwuid_inj _ _ i
    · exact countSpec_of_mono (fun h => h)
        (bimap_get_by_id_count_other (fun _ hc => RawCall.noConfusion hc) _ _)
  | currentGroupname =>
    simp only [runOp] at heq
    obtain ⟨hs, htr⟩ := some_pair_inj heq
    subst hs; subst htr
    have hf := get_current_gid_frame env s
    have hcU : countIn (RawCall.pwuid i) (OSUsers.get_current_gid env s).2.2 = 0 := by
      rcases hf.2.2 with h | h <;> rw [h] <;> simp [countIn]
    have hcG : countIn (RawCall.grgid i) (OSUsers.get_current_gid env s).2.2 = 0 := by
      rcases hf.2.2 with h | h <;> rw [h] <;> simp [countIn]
    refine ⟨CountSpec.seq (B := alookup ((OSUsers.get_current_gid env s).2.1).users.forward i)
              (countSpec_of_mono (fun h => by rw [hf.1] at h; exact h) hcU) ?_,
            CountSpec.seq (B := alookup ((OSUsers.get_current_gid env s).2.1).groups.forward i)
              (countSpec_of_mono (fun h => by rw [hf.2.1] at h; exact h) hcG) ?_⟩
    · exact countSpec_of_mono (fun h => h)
        (bimap_get_by_id_count_other (fun _ hc => RawCall.noConfusion hc) _ _)
    · exact countSpec_get_by_id grgid_inj _ _ i
  | effectiveUsername =>
    simp only [runOp] at heq
    obtain ⟨hs, htr⟩ := some_pair_inj heq
    subst hs; subst htr
    have hf := get_effective_uid_frame env s
    have hcU : countIn (RawCall.pwuid i) (OSUsers.get_effective_uid env s).2.2 = 0 := by
      rcases hf.2.2 with h | h <;> rw [h] <;> simp [countIn]
    have hcG : countIn (RawCall.grgid i) (OSUsers.get_effective_uid env s).2.2 = 0 := by
      rcases hf.2.2 with h | h <;> rw [h] <;> simp [countIn]
    refine ⟨CountSpec.seq (B := alookup ((OSUsers.get_effective_uid env s).2.1).users.forward i)
              (countSpec_of_mono (fun h => by rw [hf.1] at h; exact h) hcU) ?_,
            CountSpec.seq (B := alookup ((OSUsers.get_effective_uid env s).2.1).groups.forward i)
              (countSpec_of_mono (fun h => by rw [hf.2.1] at h; exact h) hcG) ?_⟩
    · exact countSpec_get_by_id pwuid_inj _ _ i
    · exact countSpec_of_mono (fun h => h)
        (bimap_get_by_id_count_other (fun _ hc => RawCall.noConfusion hc) _ _)
  | effectiveGroupname =>
    simp only [runOp] at heq
    obtain ⟨hs, htr⟩ := some_pair_inj heq
    subst hs; subst htr
    have hf := get_effective_gid_frame env s
    have hcU : countIn (RawCall.pwuid i) (OSUsers.get_effective_gid env s).2.2 = 0 := by
      rcases hf.2.2 with h | h <;> rw [h] <;> simp [countIn]
    have hcG : countIn (RawCall.grgid i) (OSUsers.get_effective_gid env s).2.2 = 0 := by
      rcases hf.2.2 with h | h <;> rw [h] <;> simp [countIn]
    refine ⟨CountSpec.seq (B := alookup ((OSUsers.get_effective_gid env s).2.1).users.forward i)
              (countSpec_of_mono (fun h => by rw [hf.1] at h; exact h) hcU) ?_,
            CountSpec.seq (B := alookup ((OSUsers.get_effective_gid env s).2.1).groups.forward i)
              (countSpec_of_mono (fun h => by rw [hf.2.1] at h; exact h) hcG) ?_⟩
    · exact countSpec_of_mono (fun h => h)
        (bimap_get_by_id_count_other (fun _ hc => RawCall.noConfusion hc) _ _)
    · exact countSpec_get_by_id grgid_inj _ _ i

/-- Every sequence of cache operations satisfies the counting step. -/
theorem runOps_countSpec {env : RawEnv} :
    ∀ (ops : List Op) (s s' : OSUsers) (tr : List RawCall),
      runOps env s ops = some (s', tr) → ∀ i,
      CountSpec (RawCall.pwuid i) tr
        (alookup s.users.forward i) (alookup s'.users.forward i) ∧
      CountSpec (RawCall.grgid i) tr
        (alookup s.groups.forward i) (alookup s'.groups.forward i) := by
  intro ops
  induction ops with
  | nil =>
    intro s s' tr heq i
    obtain ⟨hs, htr⟩ := some_pair_inj heq
    subst hs; subst htr
    exact ⟨countSpec_of_mono (fun h => h) rfl, countSpec_of_mono (fun h => h) rfl⟩
  | cons op rest ih =>
    intro s s' tr heq i
    simp only [runOps] at heq
    split at heq
    · cases heq
    · rename_i s1 tr1 h1
      split at heq
      · cases heq
      · rename_i s2 tr2 h2
        obtain ⟨hs, htr⟩ := some_pair_inj heq
        subst hs; subst htr
        obtain ⟨u1, g1⟩ := runOp_countSpec h1 i
        obtain ⟨u2, g2⟩ := ih s1 s2 tr2 h2 i
        exact ⟨u1.seq u2, g1.seq g2⟩

/-! ## Auxiliary facts about the fixtures and the iterator -/

/-- The concrete database `env0` is well-formed. -/
theorem env0_wf : EnvWF env0 := by
  refine ⟨⟨?_, ?_, ?_, ?_, ?_⟩, ⟨?_, ?_, ?_, ?_, ?_⟩⟩ <;> intro a b h <;>
    simp only [env0] at h <;> split at h
  all_goals first
    | (cases h
       done)
    | (rename_i hc
       cases h
       subst hc
       decide)

theorem countIn_replicate_ne {α : Type} [DecidableEq α] {c d : α} (h : d ≠ c)
    (n : Nat) : countIn c (List.replicate n d) = 0 := by
  induction n with
  | zero => rfl
  | succ n ih => simp [List.replicate, countIn, ih, h]

/-- A consumer pulling `k` items yields the first `k` raw records, leaves
the cursor past them, and calls `getpwent` once per pull (one extra pull
observes the terminating null). -/
theorem allUsers_take_spec :
    ∀ (k : Nat) (l : List User),
      (AllUsers.take { remaining := l } k).1 = l.take k ∧
      (AllUsers.take { remaining := l } k).2.1 = { remaining := l.drop k } ∧
      (AllUsers.take { remaining := l } k).2.2 =
        List.replicate (min k (l.length + 1)) CursorCall.getpwent := by
  intro k
  induction k with
  | zero =>
    intro l
    exact ⟨rfl, rfl, by simp [AllUsers.take]⟩
  | succ k ih =>
    intro l
    cases l with
    | nil =>
      refine ⟨rfl, rfl, ?_⟩
      have hmin : min (k + 1) (List.length ([] : List User) + 1) = 1 := by
        simp
      rw [hmin]
      rfl
    | cons u rest =>
      obtain ⟨ih1, ih2, ih3⟩ := ih rest
      have hmin : min (k + 1) ((u :: rest).length + 1) = min k (rest.length + 1) + 1 := by
        simp [Nat.succ_min_succ]
      refine ⟨?_, ?_, ?_⟩
      · show u :: (AllUsers.take { remaining := rest } k).1 = u :: rest.take k
        rw [ih1]
      · show (AllUsers.take { remaining := rest } k).2.1 = { remaining := rest.drop k }
        rw [ih2]
      · show CursorCall.getpwent :: (AllUsers.take { remaining := rest } k).2.2 =
          List.replicate (min (k + 1) ((u :: rest).length + 1)) CursorCall.getpwent
        rw [ih3, hmin, List.replicate]

/-! ## The claims -/

/-- C6: Group-member expansion walks the raw pointer array from index 0
and stops at the first index where the array pointer itself is null or the
pointed-to entry is null, yielding exactly the (possibly empty) ordered
sequence of entries before that terminator — never an error, never a
spurious empty string, and nothing past the terminator. -/
theorem claim_C6_members :
    ∀ (pre : List String) (post : List (Option String)),
      members (some (pre.map some ++ none :: post)) = pre ∧
      members none = [] ∧
      members (some (none :: post)) = [] ∧
      members (some []) = [] := by
  intro pre post
  refine ⟨?_, rfl, rfl, rfl⟩
  induction pre with
  | nil => rfl
  | cons s rest ih =>
    show s :: membersFrom (rest.map some ++ none :: post) = s :: rest
    rw [show membersFrom (rest.map some ++ none :: post) = rest from ih]

/-- C7: The defensive raw lookups return not-found as an absent value —
never an error or a panic — both on a null result and on a result pointer
that does not match the supplied struct; a present value arises exactly
from a matching result, and a name with an embedded null byte is rejected
up front. -/
theorem claim_C7_not_found :
    ∀ (dbU : Nat → LookupOutcome User) (dbnU : String → LookupOutcome User)
      (dbG : Nat → LookupOutcome Group) (dbnG : String → LookupOutcome Group)
      (i : Nat) (n : String),
      (base.get_user_by_uid dbU i = none ↔
        dbU i = .nullResult ∨ dbU i = .mismatch) ∧
      (∀ u, base.get_user_by_uid dbU i = some u ↔ dbU i = .found u) ∧
      (base.get_group_by_gid dbG i = none ↔
        dbG i = .nullResult ∨ dbG i = .mismatch) ∧
      (∀ g, base.get_group_by_gid dbG i = some g ↔ dbG i = .found g) ∧
      (hasNul n = true →
        base.get_user_by_name dbnU n = none ∧ base.get_group_by_name dbnG n = none) ∧
      (hasNul n = false →
        (base.get_user_by_name dbnU n = none ↔
          dbnU n = .nullResult ∨ dbnU n = .mismatch) ∧
        (base.get_group_by_name dbnG n = none ↔
          dbnG n = .nullResult ∨ dbnG n = .mismatch)) := by
  intro dbU dbnU dbG dbnG i n
  refine ⟨?_, ?_, ?_, ?_, ?_, ?_⟩
  · cases h : dbU i <;> simp [base.get_user_by_uid, h]
  · intro u
    cases h : dbU i <;> simp [base.get_user_by_uid, h]
  · cases h : dbG i <;> simp [base.get_group_by_gid, h]
  · intro g
    cases h : dbG i <;> simp [base.get_group_by_gid, h]
  · intro hn
    exact ⟨by simp [base.get_user_by_name, hn], by simp [base.get_group_by_name, hn]⟩
  · intro hn
    constructor
    · cases h : dbnU n <;> simp [base.get_user_by_name, hn, h]
    · cases h : dbnG n <;> simp [base.get_group_by_name, hn, h]

/-- C8: Each identity-mutation function returns `Ok(())` exactly when the
underlying privilege-change primitive returns 0, returns the error
carrying the OS error code exactly when it returns -1, and treats any
other return value as unreachable. -/
theorem claim_C8_setters :
    ∀ (env : SwitchEnv) (u g ru eu rg eg : Nat),
      OutcomeSpec (env.setuid_ret u) (env.setuid_errno u)
        (switch.set_current_uid env u) ∧
      OutcomeSpec (env.setgid_ret g) (env.setgid_errno g)
        (switch.set_current_gid env g) ∧
      OutcomeSpec (env.seteuid_ret eu) (env.seteuid_errno eu)
        (switch.set_effective_uid env eu) ∧
      OutcomeSpec (env.setegid_ret eg) (env.setegid_errno eg)
        (switch.set_effective_gid env eg) ∧
      OutcomeSpec (env.setreuid_ret ru u) (env.setreuid_errno ru u)
        (switch.set_both_uid env ru u) ∧
      OutcomeSpec (env.setregid_ret rg g) (env.setregid_errno rg g)
        (switch.set_both_gid env rg g) := by
  intro env u g ru eu rg eg
  refine ⟨?_, ?_, ?_, ?_, ?_, ?_⟩ <;>
    simp only [switch.set_current_uid, switch.set_current_gid,
      switch.set_effective_uid, switch.set_effective_gid, switch.set_both_uid,
      switch.set_both_gid] <;>
    split
  all_goals first
    | (rename_i h0
       exact ⟨fun _ => rfl, fun h => absurd h (by rw [h0]; decide),
              fun hne _ => absurd h0 hne, fun _ => h0, fun e he => by simp at he⟩)
    | (rename_i h1
       exact ⟨fun h => absurd h (by rw [h1]; decide), fun _ => rfl,
              fun _ hne => absurd h1 hne, fun h => by simp at h,
              fun e he => ⟨h1, (SysOutcome.err.inj he).symm⟩⟩)
    | (rename_i h0 h1
       exact ⟨fun h => absurd h h0, fun h => absurd h h1, fun _ _ => rfl,
              fun h => by simp at h, fun e he => by simp at he⟩)

/-- C9: The all-users iterator yields one record per raw record until the
cursor returns null (end-of-sequence), and disposal invokes `endpwent`
exactly once whether the consumer finished or abandoned iteration early. -/
theorem claim_C9_iterator :
    ∀ (records : List User) (k : Nat),
      (allUsersRun records k).1 = records.take k ∧
      (allUsersRun records k).2 =
        CursorCall.setpwent ::
          (List.replicate (min k (records.length + 1)) CursorCall.getpwent ++
            [CursorCall.endpwent]) ∧
      countIn CursorCall.endpwent (allUsersRun records k).2 = 1 ∧
      countIn CursorCall.setpwent (allUsersRun records k).2 = 1 ∧
      (AllUsers.next { remaining := [] }).1 = none := by
  intro records k
  obtain ⟨h1, h2, h3⟩ := allUsers_take_spec k records
  have htr : (allUsersRun records k).2 =
      CursorCall.setpwent ::
        (List.replicate (min k (records.length + 1)) CursorCall.getpwent ++
          [CursorCall.endpwent]) := by
    show CursorCall.setpwent :: ((AllUsers.take { remaining := records } k).2.2 ++
      AllUsers.drop (AllUsers.take { remaining := records } k).2.1) = _
    rw [h3]
    rfl
  refine ⟨?_, htr, ?_, ?_, rfl⟩
  · exact h1
  · rw [htr]
    simp only [countIn, countIn_append]
    rw [countIn_replicate_ne (fun hc => CursorCall.noConfusion hc)]
    rfl
  · rw [htr]
    simp only [countIn, countIn_append]
    rw [countIn_replicate_ne (fun hc => CursorCall.noConfusion hc)]
    rfl

/-- C5: Disposal of a `SwitchUserGuard` restores the effective uid and
then the effective gid to the values captured at construction; if either
restoring call fails, the condition is fatal (a panic), never a
recoverable error. -/
theorem claim_C5_guard_drop :
    ∀ (env : SwitchEnv) (p : ProcIds) (g : SwitchUserGuard),
      (switch.set_effective_uid env g.uid = .ok →
        switch.set_effective_gid env g.gid = .ok →
        SwitchUserGuard.drop env p g =
          some ({ euid := g.uid, egid := g.gid },
                [SwitchCall.seteuid g.uid, SwitchCall.setegid g.gid])) ∧
      (switch.set_effective_uid env g.uid ≠ .ok ∨
        switch.set_effective_gid env g.gid ≠ .ok →
        SwitchUserGuard.drop env p g = none) := by
  intro env p g
  constructor
  · intro hu hg
    unfold SwitchUserGuard.drop
    rw [hu, hg]
  · intro hor
    unfold SwitchUserGuard.drop
    cases hu : switch.set_effective_uid env g.uid with
    | ok =>
      cases hg : switch.set_effective_gid env g.gid with
      | ok =>
        rcases hor with h | h
        · exact absurd hu h
        · exact absurd hg h
      | err e => rfl
      | unreachable r => rfl
    | err e => rfl
    | unreachable r => rfl

/-- C5 witness: with primitives that succeed, disposing a guard captured at
(5, 6) performs `seteuid 5` then `setegid 6` and restores both ids. -/
theorem claim_C5_witness :
    SwitchUserGuard.drop envOk { euid := 1, egid := 2 } { uid := 5, gid := 6 } =
      some ({ euid := 5, egid := 6 }, [SwitchCall.seteuid 5, SwitchCall.setegid 6]) :=
  (claim_C5_guard_drop envOk { euid := 1, egid := 2 } { uid := 5, gid := 6 }).1 rfl rfl

/-- C4 as stated is false of the `src/lib.rs` snapshot of
`switch_user_group`: with a primitive environment where `setegid` fails
with error 13 and `seteuid` succeeds, the claim demands that the error be
returned with the uid change never attempted, yet the `lib.rs` function
attempts (and commits) `seteuid 7` before `setegid 9`, so the effective
uid has already changed when the error is returned. -/
theorem claim_C4_counterexample :
    switch.set_effective_gid envC4 9 = SysOutcome.err 13 ∧
    lib_switch_user_group envC4 { euid := 1, egid := 2 } 7 9 =
      some (Except.error 13, { euid := 7, egid := 2 },
            [SwitchCall.geteuid, SwitchCall.getegid, SwitchCall.seteuid 7,
             SwitchCall.setegid 9]) ∧
    countIn (SwitchCall.seteuid 7)
      [SwitchCall.geteuid, SwitchCall.getegid, SwitchCall.seteuid 7,
       SwitchCall.setegid 9] = 1 := by
  refine ⟨rfl, rfl, rfl⟩

/-- C4 amended: the current `src/switch.rs` `switch_user_group` captures
the effective uid and gid first and sets the new effective gid before the
new effective uid, returning the first failure with the second change
un-attempted; the historical `src/lib.rs` snapshot applies the same
capture-first and first-failure discipline but sets uid before gid. -/
theorem claim_C4_amended :
    ∀ (env : SwitchEnv) (p : ProcIds) (uid gid : Nat),
      (∀ e, switch.set_effective_gid env gid = .err e →
        switch_user_group env p uid gid =
          some (.error e, p,
                [SwitchCall.geteuid, SwitchCall.getegid, SwitchCall.setegid gid])) ∧
      (switch.set_effective_gid env gid = .ok →
        switch.set_effective_uid env uid = .ok →
        switch_user_group env p uid gid =
          some (.ok { uid := p.euid, gid := p.egid }, { euid := uid, egid := gid },
                [SwitchCall.geteuid, SwitchCall.getegid, SwitchCall.setegid gid,
                 SwitchCall.seteuid uid])) ∧
      (∀ e, switch.set_effective_gid env gid = .ok →
        switch.set_effective_uid env uid = .err e →
        switch_user_group env p uid gid =
          some (.error e, { p with egid := gid },
                [SwitchCall.geteuid, SwitchCall.getegid, SwitchCall.setegid gid,
                 SwitchCall.seteuid uid])) ∧
      (∀ e, switch.set_effective_uid env uid = .err e →
        lib_switch_user_group env p uid gid =
          some (.error e, p,
                [SwitchCall.geteuid, SwitchCall.getegid, SwitchCall.seteuid uid])) := by
  intro env p uid gid
  refine ⟨?_, ?_, ?_, ?_⟩
  · intro e hg
    unfold switch_user_group
    rw [hg]
  · intro hg hu
    unfold switch_user_group
    rw [hg, hu]
  · intro e hg hu
    unfold switch_user_group
    rw [hg, hu]
  · intro e hu
    unfold lib_switch_user_group
    rw [hu]

/-- C4 witness: with primitives that succeed, the `switch.rs` function
captures (1, 2), performs `setegid 9` before `seteuid 7`, and returns the
guard holding the captured pair. -/
theorem claim_C4_witness :
    switch_user_group envOk { euid := 1, egid := 2 } 7 9 =
      some (.ok { uid := 1, gid := 2 }, { euid := 7, egid := 9 },
            [SwitchCall.geteuid, SwitchCall.getegid, SwitchCall.setegid 9,
             SwitchCall.seteuid 7]) :=
  (claim_C4_amended envOk { euid := 1, egid := 2 } 7 9).2.1 rfl rfl

/-- C1: Against a well-formed raw database, over any sequence of cache
operations on one cache instance, the raw by-id lookup for any id is
performed at most once (users and groups alike), and a by-id lookup at any
reachable state returns exactly the raw database's answer for that id —
so every call agrees with the first, not-found included. -/
theorem claim_C1_memoization :
    ∀ (env : RawEnv), EnvWF env →
    ∀ (ops : List Op) (s : OSUsers) (tr : List RawCall),
      runOps env OSUsers.empty_cache ops = some (s, tr) →
      ∀ i : Nat,
        countIn (RawCall.pwuid i) tr ≤ 1 ∧
        countIn (RawCall.grgid i) tr ≤ 1 ∧
        (OSUsers.get_user_by_uid env s i).1 = env.getpwuid i ∧
        (OSUsers.get_group_by_gid env s i).1 = env.getgrgid i := by
  intro env W ops s tr heq i
  obtain ⟨cu, cg⟩ := runOps_countSpec ops OSUsers.empty_cache s tr heq i
  have hInv := runOps_stateInv W ops OSUsers.empty_cache s tr (stateInv_empty env) heq
  have hbU := cu.1 rfl
  have hbG := cg.1 rfl
  refine ⟨?_, ?_, ?_, ?_⟩
  · exact le_trans (Nat.le_add_right _ _) hbU
  · exact le_trans (Nat.le_add_right _ _) hbG
  · exact bimap_get_by_id_result i hInv.1.1
  · exact bimap_get_by_id_result i hInv.2.1

/-- C1 witness: running `demoOpsC1` (two repeated present lookups, two
repeated absent lookups, one group lookup) against `env0` performs one raw
call per distinct id, and further by-id calls agree with the database. -/
theorem claim_C1_witness :
    countIn (RawCall.pwuid 501) demoTraceC1 ≤ 1 ∧
    countIn (RawCall.pwuid 777) demoTraceC1 ≤ 1 ∧
    (OSUsers.get_user_by_uid env0 demoStateC1 777).1 = none :=
  ⟨(claim_C1_memoization env0 env0_wf demoOpsC1 demoStateC1 demoTraceC1 rfl 501).1,
   (claim_C1_memoization env0 env0_wf demoOpsC1 demoStateC1 demoTraceC1 rfl 777).1,
   (claim_C1_memoization env0 env0_wf demoOpsC1 demoStateC1 demoTraceC1 rfl 777).2.2.1⟩

/-- C2: Against a well-formed raw database, whenever a by-name lookup at a
reachable cache state resolves to a present record, the record bears the
looked-up name and an immediately following by-id lookup of its id returns
the same record from the same state with no raw call at all; and at every
reachable state the backward and forward indexes agree on which name/id
pairs are resolved-present. -/
theorem claim_C2_cross_index :
    ∀ (env : RawEnv), EnvWF env →
    ∀ (ops : List Op) (s : OSUsers) (tr : List RawCall),
      runOps env OSUsers.empty_cache ops = some (s, tr) →
      (∀ n u s' tr',
        OSUsers.get_user_by_name env s n = some (some u, s', tr') →
        OSUsers.get_user_by_uid env s' u.uid = (some u, s', []) ∧ u.name = n) ∧
      (∀ n g s' tr',
        OSUsers.get_group_by_name env s n = some (some g, s', tr') →
        OSUsers.get_group_by_gid env s' g.gid = (some g, s', []) ∧ g.name = n) ∧
      (∀ n i, alookup s.users.backward n = some (some i) ↔
        ∃ u, alookup s.users.forward i = some (some u) ∧ u.name = n) := by
  intro env W ops s tr heq
  have hInv := runOps_stateInv W ops OSUsers.empty_cache s tr (stateInv_empty env) heq
  refine ⟨?_, ?_, ?_⟩
  · intro n u s' tr' heq'
    rcases hb : bimap_get_by_name env.getpwnam User.uid RawCall.pwnam s.users n with _ | ⟨rv, rm, rtr⟩
    · simp only [OSUsers.get_user_by_name, hb, Option.map] at heq'
      cases heq'
    · simp only [OSUsers.get_user_by_name, hb, Option.map] at heq'
      obtain ⟨hv, hs, htr'⟩ := some_triple_inj heq'
      subst hv
      subst hs
      obtain ⟨hname, hraw, hfwd⟩ := bimap_get_by_name_found W.1 hInv.1 hb
      refine ⟨?_, hname⟩
      simp only [OSUsers.get_user_by_uid, bimap_get_by_id_hit hfwd]
  · intro n g s' tr' heq'
    rcases hb : bimap_get_by_name env.getgrnam Group.gid RawCall.grnam s.groups n with _ | ⟨rv, rm, rtr⟩
    · simp only [OSUsers.get_group_by_name, hb, Option.map] at heq'
      cases heq'
    · simp only [OSUsers.get_group_by_name, hb, Option.map] at heq'
      obtain ⟨hv, hs, htr'⟩ := some_triple_inj heq'
      subst hv
      subst hs
      obtain ⟨hname, hraw, hfwd⟩ := bimap_get_by_name_found W.2 hInv.2 hb
      refine ⟨?_, hname⟩
      simp only [OSUsers.get_group_by_gid, bimap_get_by_id_hit hfwd]
  · intro n i
    obtain ⟨h1, h2, h3, h4⟩ := hInv.1
    constructor
    · intro hbw
      have hfne := h4 n i hbw
      rcases h2 n with hx | hx
      · rw [hx] at hbw; cases hbw
      · rw [hx] at hbw
        have hmap := Option.some.inj hbw
        rcases hw : checkedByName env.getpwnam n with _ | w
        · rw [hw] at hmap; cases hmap
        · rw [hw] at hmap
          have hwi : User.uid w = i := Option.some.inj hmap
          have hrawN : env.getpwnam n = some w := by
            unfold checkedByName at hw
            split at hw
            · cases hw
            · exact hw
          have hname : w.name = n := W.1.name_matches n w hrawN
          have hraww : env.getpwuid (User.uid w) = some w := W.1.name_to_id n w hrawN
          rw [hwi] at hraww
          rcases h1 i with hy | hy
          · exact absurd hy hfne
          · refine ⟨w, ?_, hname⟩
            rw [hy, hraww]
    · rintro ⟨u, hfw, hun⟩
      have h3u := h3 i u hfw
      have hraw : env.getpwuid i = some u := by
        rcases h1 i with hy | hy
        · rw [hy] at hfw; cases hfw
        · rw [hy] at hfw
          exact Option.some.inj hfw
      have hui : User.uid u = i := W.1.id_matches i u hraw
      rw [← hun, ← hui]
      exact h3u

/-- C2 witness: on a fresh `env0` cache, after `get_user_by_name "alice"`
resolves to the record with id 501, `get_user_by_uid 501` on the resulting
state returns the same record with no raw call, and the record's name is
"alice". -/
theorem claim_C2_witness :
    OSUsers.get_user_by_uid env0 stateAlice 501 = (some alice, stateAlice, []) ∧
    alice.name = "alice" :=
  (claim_C2_cross_index env0 env0_wf [] OSUsers.empty_cache [] rfl).1 "alice" alice
    stateAlice [RawCall.pwnam "alice"] (by decide)

/-- C10: Under the sole assumption that the raw by-id lookups return
records bearing the queried id, every id stored as a `Some` value in a
backward map of any reachable cache state is a key of the corresponding
forward map, and consequently no sequence of cache operations ever
reaches the panicking missing-key indexing in `get_by_name`. -/
theorem claim_C10_no_panic :
    ∀ (env : RawEnv),
      (∀ j u, env.getpwuid j = some u → u.uid = j) →
      (∀ j g, env.getgrgid j = some g → g.gid = j) →
      ∀ ops : List Op,
        runOps env OSUsers.empty_cache ops ≠ none ∧
        ∀ s tr, runOps env OSUsers.empty_cache ops = some (s, tr) →
          KeysInv s.users ∧ KeysInv s.groups := by
  intro env hU hG ops
  exact runOps_keys hU hG ops OSUsers.empty_cache
    (fun n i h => Option.noConfusion h) (fun n i h => Option.noConfusion h)

/-- C10 witness: a run mixing by-name and by-id lookups against `env0`
completes without reaching the panicking indexing. -/
theorem claim_C10_witness :
    runOps env0 OSUsers.empty_cache demoOpsC10 ≠ none :=
  (claim_C10_no_panic env0 env0_wf.1.id_matches env0_wf.2.id_matches demoOpsC10).1

/-- C3 as stated is false of the `src/os.rs` cache: looking up a name with
an embedded null byte on a fresh cache returns not-found without any raw
call, but the cache maps are *not* left completely unchanged — the backward
map gains a resolved-absent entry for the null-holding name. -/
theorem claim_C3_counterexample :
    OSUsers.get_user_by_name env0 OSUsers.empty_cache nulName =
      some (none,
        { users := { forward := [], backward := [(nulName, none)] },
          groups := { forward := [], backward := [] },
          uid := none, gid := none, euid := none, egid := none }, []) ∧
    ({ users := { forward := [], backward := [(nulName, none)] },
       groups := { forward := [], backward := [] },
       uid := none, gid := none, euid := none, egid := none } : OSUsers) ≠
      OSUsers.empty_cache := by
  exact ⟨rfl, by decide⟩

/-- C3 amended: for a name with an embedded null byte (at any cache state
whose backward map does not resolve that name to an id, which holds at
every reachable state), `get_user_by_name` returns not-found with no raw
OS call. In the `src/lib.rs` cache the maps are left completely unchanged;
in the `src/os.rs` cache the sole change is a resolved-absent backward
entry under that very name, a repeated call returns not-found with no
further change, and lookups of any other name return the same result with
the same raw calls as before. -/
theorem claim_C3_amended :
    ∀ (env : RawEnv) (s : OSUsers) (n : String),
      hasNul n = true →
      (∀ i, alookup s.users.backward n ≠ some (some i)) →
      (alookup s.users.backward n = none →
        OSUsers.get_user_by_name env s n =
          some (none,
            { s with users := { s.users with backward := ainsert s.users.backward n none } },
            [])) ∧
      (alookup s.users.backward n = some none →
        OSUsers.get_user_by_name env s n = some (none, s, [])) ∧
      (∀ s', OSUsers.get_user_by_name env s n = some (none, s', []) →
        OSUsers.get_user_by_name env s' n = some (none, s', [])) ∧
      OSUsers.lib_get_user_by_name env s n = some (none, s, []) ∧
      (∀ m, m ≠ n → ∀ s1, OSUsers.get_user_by_name env s n = some (none, s1, []) →
        ∀ r2 s2 tr2 r3 s3 tr3,
          OSUsers.get_user_by_name env s1 m = some (r2, s2, tr2) →
          OSUsers.get_user_by_name env s m = some (r3, s3, tr3) →
          r2 = r3 ∧ tr2 = tr3) := by
  intro env s n hn hns
  have hb3 : alookup s.users.backward n = none ∨
      alookup s.users.backward n = some none := by
    rcases hb : alookup s.users.backward n with _ | oi
    · exact Or.inl rfl
    · rcases oi with _ | i
      · exact Or.inr rfl
      · exact absurd hb (hns i)
  have hcase1 : alookup s.users.backward n = none →
      OSUsers.get_user_by_name env s n =
        some (none,
          { s with users := { s.users with backward := ainsert s.users.backward n none } },
          []) := by
    intro hb
    simp only [OSUsers.get_user_by_name, bimap_get_by_name_vacant_nul hb hn, Option.map]
  have hcase2 : alookup s.users.backward n = some none →
      OSUsers.get_user_by_name env s n = some (none, s, []) := by
    intro hb
    simp only [OSUsers.get_user_by_name, bimap_get_by_name_occ_none hb, Option.map]
  refine ⟨hcase1, hcase2, ?_, ?_, ?_⟩
  · intro s' heq'
    rcases hb3 with hb | hb
    · rw [hcase1 hb] at heq'
      obtain ⟨-, hs1, -⟩ := some_triple_inj heq'
      subst hs1
      have hocc :
          alookup ({ s.users with backward := ainsert s.users.backward n none } : BiMap User).backward n =
            some none := alookup_ainsert_self _ _ _
      simp only [OSUsers.get_user_by_name, bimap_get_by_name_occ_none hocc, Option.map]
    · rw [hcase2 hb] at heq'
      obtain ⟨-, hs1, -⟩ := some_triple_inj heq'
      subst hs1
      exact hcase2 hb
  · rcases hb3 with hb | hb
    · simp only [OSUsers.lib_get_user_by_name, bimap_get_by_name_lib_vacant_nul hb hn,
        Option.map]
    · simp only [OSUsers.lib_get_user_by_name, bimap_get_by_name_lib_occ_none hb,
        Option.map]
  · intro m hm s1 heq1 r2 s2 tr2 r3 s3 tr3 heq2 heq3
    rcases hb3 with hb | hb
    · rw [hcase1 hb] at heq1
      obtain ⟨-, hs1, -⟩ := some_triple_inj heq1
      subst hs1
      rcases hbm2 : bimap_get_by_name env.getpwnam User.uid RawCall.pwnam
          ({ s.users with backward := ainsert s.users.backward n none }) m with _ | ⟨v2, m2, t2⟩
      · simp only [OSUsers.get_user_by_name, hbm2, Option.map] at heq2
        cases heq2
      · rcases hbm3 : bimap_get_by_name env.getpwnam User.uid RawCall.pwnam s.users m with _ | ⟨v3, m3, t3⟩
        · simp only [OSUsers.get_user_by_name, hbm3, Option.map] at heq3
          cases heq3
        · simp only [OSUsers.get_user_by_name, hbm2, Option.map] at heq2
          simp only [OSUsers.get_user_by_name, hbm3, Option.map] at heq3
          obtain ⟨hv2, -, ht2⟩ := some_triple_inj heq2
          obtain ⟨hv3, -, ht3⟩ := some_triple_inj heq3
          subst hv2
          subst hv3
          subst ht2
          subst ht3
          exact @bimap_get_by_name_congr User env.getpwnam User.uid RawCall.pwnam
            { s.users with backward := ainsert s.users.backward n none } s.users m
            (alookup_ainsert_ne hm) rfl v2 v3 m2 m3 t2 t3 hbm2 hbm3
    · rw [hcase2 hb] at heq1
      obtain ⟨-, hs1, -⟩ := some_triple_inj heq1
      subst hs1
      obtain ⟨ha, -, hc⟩ := some_triple_inj (heq2.symm.trans heq3)
      exact ⟨ha, hc⟩

/-- C3 witness: on a fresh `env0` cache, the `lib.rs` variant rejects the
null-holding name with the cache left untouched. -/
theorem claim_C3_witness :
    OSUsers.lib_get_user_by_name env0 OSUsers.empty_cache nulName =
      some (none, OSUsers.empty_cache, []) :=
  (claim_C3_amended env0 OSUsers.empty_cache nulName rfl
    (fun _ h => Option.noConfusion h)).2.2.2.1

end Users
